import Mathlib

/-
Verification of the yamdr markdown pipeline (the md crate).

Shallow embedding of src/md/src: the extended-event model and classifier
(lib.rs), the markdown re-serializer (md.rs), the document segmenter
(lib.rs, render_blocks), and the script-block runtime (script_block.rs).

External collaborators (the pulldown-cmark tokenizer and HTML serializer,
serde_yaml / serde_json, tree-sitter highlighting, the plotters rasterizer,
the layout graph engine and the rhai scripting engine) are out of scope per
the specification; they enter the model either as explicit function
parameters bundled in the `Collab` structure, or as definitions whose doc
comment starts with "Modelled from the spec:".
-/

set_option maxHeartbeats 1000000

/-! ## Events and tags (pulldown_cmark::{Event, Tag}, as used by the crate) -/

/-- pulldown_cmark::HeadingLevel. -/
inductive HLevel
  | h1 | h2 | h3 | h4 | h5 | h6
deriving DecidableEq

/-- The pulldown_cmark tags this crate manipulates.  `Tag::Link` keeps only
the destination (the only field md.rs reads); `Tag::Table` keeps only the
number of alignment entries (md.rs only counts them); `Tag::Heading` keeps
the level and the optional fragment id. -/
inductive MTag
  | paragraph
  | heading (lvl : HLevel) (id : Option String)
  | codeBlockFenced (props : String)
  | codeBlockIndented
  | table (cols : Nat)
  | tableHead
  | tableRow
  | tableCell
  | list (start : Option Nat)
  | item
  | blockQuote
  | footnoteDefinition (label : String)
  | link (dest : String)
  | strong
  | emphasis
  | strikethrough
deriving DecidableEq

/-- The pulldown_cmark events this crate manipulates.  `Ev.stop` stands for
`Event::End` (`end` is a Lean keyword). -/
inductive Ev
  | start (t : MTag)
  | stop (t : MTag)
  | text (s : String)
  | code (s : String)
  | html (s : String)
  | softBreak
  | hardBreak
  | rule
deriving DecidableEq

/-! ## The markdown re-serializer (md.rs) -/

/-- `"  ".repeat(n)`-style string repetition. -/
def repStr (n : Nat) (s : String) : String :=
  (List.replicate n s).foldl (· ++ ·) ""

/-- md.rs `start_tag`.  `none` models the `unreachable!()` arm of `Tag::Item`.
`parents` is the tag stack (bottom of the stack first, like the Rust `Vec`),
`eventCount` the per-nesting-level event counter. -/
def start_tag (tag : MTag) (parents : List MTag) (eventCount : Nat) : Option String :=
  match tag with
  | .heading .h1 _ => some "# "
  | .heading .h2 _ => some "## "
  | .heading .h3 _ => some "### "
  | .heading .h4 _ => some "#### "
  | .heading .h5 _ => some "##### "
  | .heading .h6 _ => some "###### "
  | .codeBlockFenced props => some ("```" ++ props ++ "\n")
  | .tableCell => some "| "
  | .item =>
    let level := (parents.filter (fun t => t = MTag.item)).length
    let indent := (if eventCount + level = 1 then "" else "\n") ++ repStr level "  "
    match parents.getLast? with
    | some (.list (some i)) => some (indent ++ toString (i + eventCount - 1) ++ ". ")
    | some (.list none) => some (indent ++ "- ")
    | _ => none
  | .link _ => some "["
  | .strong => some "**"
  | .emphasis => some "*"
  | .strikethrough => some "~~"
  | _ => some ""

/-- md.rs `end_tag`.  `none` models the `panic!()` arm of `Tag::TableHead`. -/
def end_tag (tag : MTag) (parents : List MTag) (_eventCount : Nat) : Option String :=
  match tag with
  | .heading _ none => some "\n\n"
  | .heading _ (some id) => some (" \x7b #" ++ id ++ " \x7d\n\n")
  | .codeBlockFenced _ => some "```\n\n"
  | .codeBlockIndented => some "\n"
  | .table _ => some "\n"
  | .tableHead =>
    match parents.getLast? with
    | some (.table cols) => some ("|\n" ++ repStr cols "|---" ++ "|\n")
    | _ => none
  | .tableRow => some "|\n"
  | .tableCell => some " "
  | .list _ =>
    if parents.getLast? = some MTag.item then some "" else some "\n\n"
  | .link dest => some ("](" ++ dest ++ ")")
  | .paragraph => some "\n\n"
  | .strong => some "**"
  | .emphasis => some "*"
  | .strikethrough => some "~~"
  | _ => some ""

/-- The mutable state of md.rs `render`: the explicit tag stack and the
per-nesting-level event counters. -/
structure RState where
  stack : List MTag
  counts : List Nat
deriving DecidableEq

/-- `if let Some(n) = event_count.last_mut() { *n += 1 }`. -/
def bumpLast : List Nat → List Nat
  | [] => []
  | [n] => [n + 1]
  | n :: rest => n :: bumpLast rest

/-- One loop iteration of md.rs `render`: emitted string plus updated state.
`none` models a panic. -/
def md_render_step (st : RState) (e : Ev) : Option (String × RState) :=
  let counts := bumpLast st.counts
  match e with
  | .start tag => do
    let s ← start_tag tag st.stack (counts.getLast?.getD 0)
    pure (s, ⟨st.stack ++ [tag], counts ++ [0]⟩)
  | .stop tag =>
    let stack := st.stack.dropLast
    let counts := counts.dropLast
    do
      let s ← end_tag tag stack (counts.getLast?.getD 0)
      pure (s, ⟨stack, counts⟩)
  | .text t =>
    let out :=
      if st.stack.getLast? = some MTag.codeBlockIndented then "    " ++ t
      else if st.stack.head? = some MTag.blockQuote then "> " ++ t
      else t
    pure (out, ⟨st.stack, counts⟩)
  | .code t => pure ("`" ++ t ++ "`", ⟨st.stack, counts⟩)
  | .softBreak => pure ("\n", ⟨st.stack, counts⟩)
  | .hardBreak => pure ("\n\n", ⟨st.stack, counts⟩)
  | .rule => pure ("-----\n", ⟨st.stack, counts⟩)
  | .html h => pure (h, ⟨st.stack, counts⟩)

/-- The loop of md.rs `render`, accumulating the output string. -/
def md_render_run (st : RState) : List Ev → Option (String × RState)
  | [] => some ("", st)
  | e :: rest =>
    (md_render_step st e).bind fun p =>
      (md_render_run p.2 rest).map fun q => (p.1 ++ q.1, q.2)

/-- md.rs `render`: serialize an event sequence back to markdown text.
`none` models the panics (`unreachable!`/`panic!`) of the helper functions. -/
def md_render (events : List Ev) : Option String :=
  (md_render_run ⟨[], []⟩ events).map (·.1)

/-! ## Canonical documents and their token streams (for the
re-serialization round trip).

The tokenizer itself (pulldown-cmark) is an external collaborator.  The
following `Doc` type and the two functions `docEvents` / `docSrc` are
Modelled from the spec: a canonical-form document fragment together with
the token stream the external tokenizer produces for it (§4.1, §4.5, §6).
`docSrc d` is the canonical markdown text of `d` and `docEvents d` the
tokenizer's event stream for that text. -/

/-- Inline content of a paragraph line (canonical fragment). -/
inductive Inline
  | txt (s : String)
  | codeSpan (s : String)
  | strongI (s : String)
  | emphI (s : String)
  | strikeI (s : String)
  | linkI (label : String) (dest : String)
deriving DecidableEq

/-- One canonical top-level markdown element. -/
inductive DocElem
  | headingE (lvl : HLevel) (s : String)
  | para (lines : List (List Inline))
  | fenced (props : String) (body : String)
  | ulist (items : List String)
  | olist (start : Nat) (items : List String)
  | quote (lines : List String)
  | tableE (header : List String) (rows : List (List String))
  | hrule
deriving DecidableEq

/-- Modelled from the spec: token events of one inline element. -/
def inlineEvents : Inline → List Ev
  | .txt s => [.text s]
  | .codeSpan s => [.code s]
  | .strongI s => [.start .strong, .text s, .stop .strong]
  | .emphI s => [.start .emphasis, .text s, .stop .emphasis]
  | .strikeI s => [.start .strikethrough, .text s, .stop .strikethrough]
  | .linkI label dest => [.start (.link dest), .text label, .stop (.link dest)]

/-- Join event chunks with a `SoftBreak` between consecutive chunks. -/
def joinSoftBreak : List (List Ev) → List Ev
  | [] => []
  | [l] => l
  | l :: rest => l ++ Ev.softBreak :: joinSoftBreak rest

/-- `[Start TableCell, Text c, End TableCell]` per cell. -/
def cellsEvents (cs : List String) : List Ev :=
  cs.flatMap fun c => [.start .tableCell, .text c, .stop .tableCell]

/-- One table body row. -/
def rowEvents (r : List String) : List Ev :=
  .start .tableRow :: cellsEvents r ++ [.stop .tableRow]

/-- Modelled from the spec: the external tokenizer's event stream for one
canonical top-level element. -/
def elemEvents : DocElem → List Ev
  | .headingE lvl s => [.start (.heading lvl none), .text s, .stop (.heading lvl none)]
  | .para lines =>
    .start .paragraph :: joinSoftBreak (lines.map (·.flatMap inlineEvents)) ++ [.stop .paragraph]
  | .fenced props body =>
    [.start (.codeBlockFenced props), .text body, .stop (.codeBlockFenced props)]
  | .ulist items =>
    .start (.list none) ::
      items.flatMap (fun s => [.start .item, .text s, .stop .item]) ++ [.stop (.list none)]
  | .olist start items =>
    .start (.list (some start)) ::
      items.flatMap (fun s => [.start .item, .text s, .stop .item]) ++
        [.stop (.list (some start))]
  | .quote lines =>
    .start .blockQuote :: .start .paragraph ::
      joinSoftBreak (lines.map (fun s => [.text s])) ++ [.stop .paragraph, .stop .blockQuote]
  | .tableE header rows =>
    .start (.table header.length) :: .start .tableHead :: cellsEvents header ++
      [.stop .tableHead] ++ rows.flatMap rowEvents ++ [.stop (.table header.length)]
  | .hrule => [.rule]

/-- Modelled from the spec: the tokenizer's stream for a whole document. -/
def docEvents (d : List DocElem) : List Ev :=
  d.flatMap elemEvents

/-- Canonical text of one inline element. -/
def inlineSrc : Inline → String
  | .txt s => s
  | .codeSpan s => "`" ++ s ++ "`"
  | .strongI s => "**" ++ s ++ "**"
  | .emphI s => "*" ++ s ++ "*"
  | .strikeI s => "~~" ++ s ++ "~~"
  | .linkI label dest => "[" ++ label ++ "](" ++ dest ++ ")"

/-- Concatenation of a list of strings. -/
def strConcat : List String → String
  | [] => ""
  | s :: rest => s ++ strConcat rest

/-- Join line texts with `"\n"` between consecutive lines. -/
def joinNl : List String → String
  | [] => ""
  | [l] => l
  | l :: rest => l ++ "\n" ++ joinNl rest

/-- ATX heading marker of a level (including the trailing space). -/
def headingMark : HLevel → String
  | .h1 => "# "
  | .h2 => "## "
  | .h3 => "### "
  | .h4 => "#### "
  | .h5 => "##### "
  | .h6 => "###### "

/-- Ordered-list lines numbered from `n`. -/
def numberItems (n : Nat) : List String → List String
  | [] => []
  | s :: rest => (toString n ++ ". " ++ s) :: numberItems (n + 1) rest

/-- `"| a | b "`-style row text including the closing pipe and newline. -/
def rowSrc (r : List String) : String :=
  strConcat (r.map (fun c => "| " ++ c ++ " ")) ++ "|\n"

/-- Modelled from the spec: canonical markdown text of one element. -/
def elemSrc : DocElem → String
  | .headingE lvl s => headingMark lvl ++ s ++ "\n\n"
  | .para lines => joinNl (lines.map (fun l => strConcat (l.map inlineSrc))) ++ "\n\n"
  | .fenced props body => "```" ++ props ++ "\n" ++ body ++ "```\n\n"
  | .ulist items => joinNl (items.map ("- " ++ ·)) ++ "\n\n"
  | .olist start items => joinNl (numberItems start items) ++ "\n\n"
  | .quote lines => joinNl (lines.map ("> " ++ ·)) ++ "\n\n"
  | .tableE header rows =>
    rowSrc header ++ repStr header.length "|---" ++ "|\n" ++
      strConcat (rows.map rowSrc) ++ "\n"
  | .hrule => "-----\n"

/-- Modelled from the spec: canonical markdown text of a document. -/
def docSrc (d : List DocElem) : String :=
  strConcat (d.map elemSrc)

/-- The run stays on stack `stk` and emits `out`, whatever the counters. -/
def StaysOut (stk : List MTag) (evs : List Ev) (out : String) : Prop :=
  ∀ cnts : List Nat, ∃ cnts', cnts'.length = cnts.length ∧
    md_render_run ⟨stk, cnts⟩ evs = some (out, ⟨stk, cnts'⟩)

/-- Unordered-list items as emitted by md.rs, starting from counter `c`. -/
def ulistItemsSrc (c : Nat) : List String → String
  | [] => ""
  | s :: rest => ((if c + 1 = 1 then "" else "\n") ++ ("- " ++ s)) ++ ulistItemsSrc (c + 1) rest

/-- Ordered-list items as emitted by md.rs, starting from counter `c`. -/
def olistItemsSrc (c : Nat) (i : Nat) : List String → String
  | [] => ""
  | s :: rest =>
    ((if c + 1 = 1 then "" else "\n") ++ (toString (i + c) ++ ". " ++ s)) ++
      olistItemsSrc (c + 1) i rest

/-! ## The script runtime (script_block.rs)

The rhai scripting engine is an external collaborator (spec §6).  Its
syntax/semantics are Modelled from the spec as a minimal imperative
language: a compiled unit (`SAst`) is a set of function definitions plus a
list of line-numbered top-level statements; running a unit against a scope
retains top-level `let` bindings and assignments in that scope (the
documented engine behaviour the Script runtime relies on); `debug` appends
a (source line, message) pair to the run's log.  The text-to-`SAst`
compiler itself stays opaque: it is the `compile` field of `Collab`. -/

/-- A rhai value (modelled fragment): unit, integer, or a read-only
dataset (rows of named string fields, as injected by Data blocks). -/
inductive Value
  | unit
  | int (n : Int)
  | rows (rs : List (List (String × String)))
deriving DecidableEq

/-- Modelled from the spec: textual form of a value as captured in debug
output and inline results.  Integers print in decimal; the unit value
prints as the empty string; datasets print with an opaque marker. -/
def valueToString : Value → String
  | .unit => ""
  | .int n => toString n
  | .rows _ => "[array]"

/-- An expression of the modelled script language. -/
inductive SExpr
  | lit (n : Int)
  | varE (x : String)
  | add (a b : SExpr)
  | call (f : String) (arg : SExpr)
deriving DecidableEq

/-- A top-level statement of the modelled script language.  `rowCall` and
`plotCall` are the host builtins registered by `generate_table` /
`generate_chart`; calling them on an engine that did not register them is
a runtime error. -/
inductive SStmt
  | letv (x : String) (e : SExpr)
  | assign (x : String) (e : SExpr)
  | debug (e : SExpr)
  | exprStmt (e : SExpr)
  | rowCall (args : List SExpr)
  | plotCall (pts : List (SExpr × SExpr))
deriving DecidableEq

/-- A function definition of a compiled unit (rhai functions are pure in
their arguments and cannot read the outer scope). -/
structure SFn where
  name : String
  param : String
  body : SExpr
deriving DecidableEq

/-- A compiled unit: `rhai::AST` as used by the runtime. -/
structure SAst where
  fns : List SFn
  stmts : List (Nat × SStmt)
deriving DecidableEq

/-- `AST::clone_functions_only`: keep the function definitions, drop every
top-level statement. -/
def clone_functions_only (a : SAst) : SAst :=
  { fns := a.fns, stmts := [] }

/-- `AST::merge self other`: statements of `self` then of `other`;
functions of `other` override those of `self` (lookup is first match). -/
def ast_merge (a b : SAst) : SAst :=
  { fns := b.fns ++ a.fns, stmts := a.stmts ++ b.stmts }

/-- One scope entry: rhai `Scope` slot with mutability flag. -/
structure ScopeVar where
  name : String
  isMut : Bool
  val : Value
deriving DecidableEq

/-- The persistent variable scope (most recent binding first). -/
abbrev Scope := List ScopeVar

def lookupVar (sc : Scope) (x : String) : Option ScopeVar :=
  sc.find? (fun v => v.name = x)

/-- Assign to the most recent binding of `x`; errors when `x` is absent or
bound as a constant (rhai rejects both). -/
def setVar (sc : Scope) (x : String) (v : Value) : Option Scope :=
  match sc with
  | [] => none
  | sv :: rest =>
    if sv.name = x then
      if sv.isMut then some ({ sv with val := v } :: rest) else none
    else
      (setVar rest x v).map (sv :: ·)

def lookupFn (fns : List SFn) (f : String) : Option SFn :=
  fns.find? (fun d => d.name = f)

/-- Expression evaluation; `fuel` bounds the recursion depth. -/
def evalExpr : Nat → List SFn → Scope → SExpr → Option Value
  | 0, _, _, _ => none
  | fuel + 1, fns, sc, e =>
    match e with
    | .lit n => some (.int n)
    | .varE x => (lookupVar sc x).map (·.val)
    | .add a b =>
      match evalExpr fuel fns sc a, evalExpr fuel fns sc b with
      | some (.int n), some (.int m) => some (.int (n + m))
      | _, _ => none
    | .call f arg =>
      match evalExpr fuel fns sc arg, lookupFn fns f with
      | some v, some d => evalExpr fuel fns [⟨d.param, true, v⟩] d.body
      | _, _ => none

/-- The mutable state of one engine run: the scope (shared by reference
with the runtime), the debug log, and the host-callback accumulators. -/
structure RunState where
  scope : Scope
  log : List (Nat × String)
  rowsAcc : List (List String)
  plotsAcc : List (List (Int × Int))
  lastVal : Value
deriving DecidableEq

/-- `dynamic_as_f64(..).unwrap_or(0.0)` (utils.rs), with chart coordinates
modelled as integers. -/
def valueToNum : Value → Int
  | .int n => n
  | _ => 0

/-- Execute one top-level statement. -/
def execStmt (fuel : Nat) (fns : List SFn) (hasRow hasPlot : Bool)
    (st : RunState) : Nat × SStmt → Except String RunState
  | (_, .letv x e) =>
    match evalExpr fuel fns st.scope e with
    | some v => .ok { st with scope := ⟨x, true, v⟩ :: st.scope }
    | none => .error "runtime error: eval"
  | (_, .assign x e) =>
    match evalExpr fuel fns st.scope e with
    | some v =>
      match setVar st.scope x v with
      | some sc => .ok { st with scope := sc }
      | none => .error "runtime error: assignment"
    | none => .error "runtime error: eval"
  | (ln, .debug e) =>
    match evalExpr fuel fns st.scope e with
    | some v => .ok { st with log := st.log ++ [(ln, valueToString v)] }
    | none => .error "runtime error: eval"
  | (_, .exprStmt e) =>
    match evalExpr fuel fns st.scope e with
    | some v => .ok { st with lastVal := v }
    | none => .error "runtime error: eval"
  | (_, .rowCall args) =>
    if hasRow then
      match args.mapM (evalExpr fuel fns st.scope) with
      | some vs => .ok { st with rowsAcc := st.rowsAcc ++ [vs.map valueToString] }
      | none => .error "runtime error: eval"
    else .error "runtime error: unknown function row"
  | (_, .plotCall pts) =>
    if hasPlot then
      match pts.mapM (fun p =>
          match evalExpr fuel fns st.scope p.1, evalExpr fuel fns st.scope p.2 with
          | some a, some b => some (valueToNum a, valueToNum b)
          | _, _ => none) with
      | some ps => .ok { st with plotsAcc := st.plotsAcc ++ [ps] }
      | none => .error "runtime error: eval"
    else .error "runtime error: unknown function plot"

/-- Execute a statement list in order (`run_ast_with_scope` /
`eval_ast_with_scope`). -/
def execStmts (fuel : Nat) (fns : List SFn) (hasRow hasPlot : Bool)
    (st : RunState) : List (Nat × SStmt) → Except String RunState
  | [] => .ok st
  | s :: rest =>
    match execStmt fuel fns hasRow hasPlot st s with
    | .ok st' => execStmts fuel fns hasRow hasPlot st' rest
    | .error e => .error e

/-- Fresh run state over a scope. -/
def initRun (sc : Scope) : RunState :=
  { scope := sc, log := [], rowsAcc := [], plotsAcc := [], lastVal := .unit }

/-! ## Block data model (lib.rs, script_block.rs) -/

/-- lib.rs `CustomBlockHeader`: tag `t` plus the open field map (field
values modelled as strings). -/
structure CustomBlockHeader where
  t : String
  fields : List (String × String)
deriving DecidableEq

/-- `CustomBlockHeader::empty`. -/
def CustomBlockHeader.empty (t : String) : CustomBlockHeader :=
  { t := t, fields := [] }

/-- lib.rs `ExternalBlock`. -/
structure ExternalBlock where
  body : String
  head : List (String × String)
deriving DecidableEq

/-- script_block.rs `DataBlock` (predefined fields kept as names). -/
structure DataBlock where
  name : String
  fields : List String
  data : List (List (String × String))
deriving DecidableEq

/-- plotters_block.rs `PlottersBlock`, kept opaque (parsed and serialized
only by external serde collaborators; no claim inspects it). -/
structure PlottersData where
  raw : String
deriving DecidableEq

/-- script_block.rs `LineType`. -/
inductive LineType
  | codeL (s : String)
  | outputL (s : String)
deriving DecidableEq

/-- Split a character list at newline characters (Rust `str::split('\n')`,
all pieces kept). -/
def splitNl : List Char → List (List Char)
  | [] => [[]]
  | c :: rest =>
    if c = '\n' then [] :: splitNl rest
    else
      match splitNl rest with
      | h :: t => (c :: h) :: t
      | [] => [[c]]

/-- Rust `str::lines()`: split on `'\n'`, without a trailing empty line. -/
def rustLines (s : String) : List String :=
  let parts := (splitNl s.data).map String.mk
  if parts.getLast? = some "" then parts.dropLast else parts

/-- The reserved output-comment prefix `"// > "` as a character list. -/
def outMarker : List Char := ['/', '/', ' ', '>', ' ']

/-- `line.starts_with("// > ")`. -/
def isOutputComment (l : String) : Bool :=
  outMarker.isPrefixOf l.data

/-- run_block's interleaving loop: after the 1-based line `i+1`, insert an
output line for every log entry recorded at that line, in log order. -/
def interleave_from (i : Nat) : List String → List (Nat × String) → List LineType
  | [], _ => []
  | l :: rest, log =>
    .codeL l :: ((log.filter (·.1 = i + 1)).map (fun e => .outputL e.2)) ++
      interleave_from (i + 1) rest log

/-- run_block's final filter: keep every output line, drop code lines that
carry the reserved output-comment prefix. -/
def strip_filter (ls : List LineType) : List LineType :=
  ls.filter fun l =>
    match l with
    | .outputL _ => true
    | .codeL l => !(isOutputComment l)

/-- run_block's processed line list for source lines `src` and debug log
`log`. -/
def run_block_lines (src : List String) (log : List (Nat × String)) : List LineType :=
  strip_filter (interleave_from 0 src log)

/-- `to_events` (Md, RunningScript): the code-fence body line for each
processed line. -/
def md_body_lines (ls : List LineType) : List String :=
  ls.map fun l =>
    match l with
    | .codeL s => s
    | .outputL s => "// > " ++ s

/-- Concatenate lines, each followed by `"\n"` (the `code += line; code +=
"\n"` loop of `to_events`). -/
def linesToText (ls : List String) : String :=
  strConcat (ls.map (· ++ "\n"))

/-! ## The runtime and its external collaborators -/

/-- script_block.rs `Runtime` (the `Engine` itself carries no modelled
state beyond what the methods rebuild per call). -/
structure Runtime where
  scope : Scope
  globals : Option SAst
deriving DecidableEq

/-- The external collaborators of the pipeline (spec §6), plus the call
fuel of the modelled engine: the block-header / data / plotters serde
codecs, the rhai compiler, the pulldown HTML serializer and escaper, the
highlighting, graph and chart renderers. -/
structure Collab where
  parse_header : String → Option CustomBlockHeader
  header_json : CustomBlockHeader → String
  compile : String → Option SAst
  parse_data : String → Option DataBlock
  data_yaml : DataBlock → String
  parse_plotters : String → Option PlottersData
  plotters_yaml : PlottersData → String
  plotters_html : PlottersData → String
  chart_html : List (List (Int × Int)) → String
  parse_graph : String → Option String
  push_html : List Ev → String
  escape_html : String → String
  code_html : CustomBlockHeader → String → String
  fuel : Nat

/-- `Runtime::add_globals`: compile, then store only the function
definitions (replacing any previous globals unit). -/
def Runtime.add_globals (X : Collab) (rt : Runtime) (script : String) :
    Except String Runtime :=
  match X.compile script with
  | none => .error "compilation error"
  | some ast => .ok { rt with globals := some (clone_functions_only ast) }

/-- Merge the stored globals into a freshly compiled unit
(`globals.merge(&ast)`). -/
def Runtime.merged (rt : Runtime) (ast : SAst) : SAst :=
  match rt.globals with
  | some g => ast_merge g ast
  | none => ast

/-- `Runtime::run_block`: compile, merge globals, run against the
persistent scope collecting the debug log, then interleave the source
lines with the log and strip reserved output-comment lines. -/
def Runtime.run_block (X : Collab) (rt : Runtime) (script : String) :
    Except String (Runtime × List LineType) :=
  match X.compile script with
  | none => .error "compilation error"
  | some ast =>
    let ast := rt.merged ast
    match execStmts X.fuel ast.fns false false (initRun rt.scope) ast.stmts with
    | .error e => .error e
    | .ok st =>
      .ok ({ rt with scope := st.scope }, run_block_lines (rustLines script) st.log)

/-- `Runtime::eval_line`: compile, merge globals, evaluate against the
persistent scope, return the textual value. -/
def Runtime.eval_line (X : Collab) (rt : Runtime) (script : String) :
    Except String (Runtime × String) :=
  match X.compile script with
  | none => .error "compilation error"
  | some ast =>
    let ast := rt.merged ast
    match execStmts X.fuel ast.fns false false (initRun rt.scope) ast.stmts with
    | .error e => .error e
    | .ok st => .ok ({ rt with scope := st.scope }, valueToString st.lastVal)

/-- `Runtime::generate_table`: compile, merge globals, run on a fresh
engine that registers the `row` builtin — but against the persistent
scope passed by mutable reference.  `none` models the panic of
`split_off(1)` when the body accumulated no rows. -/
def Runtime.generate_table (X : Collab) (rt : Runtime) (script : String) :
    Option (Except String (Runtime × (List String × List (List String)))) :=
  match X.compile script with
  | none => some (.error "compilation error")
  | some ast =>
    let ast := rt.merged ast
    match execStmts X.fuel ast.fns true false (initRun rt.scope) ast.stmts with
    | .error e => some (.error e)
    | .ok st =>
      match st.rowsAcc with
      | [] => none
      | r :: rs => some (.ok ({ rt with scope := st.scope }, (r, rs)))

/-- `Runtime::generate_chart`: like `generate_table` with the `plot`
builtin; accumulated point lists become the chart series. -/
def Runtime.generate_chart (X : Collab) (rt : Runtime) (script : String) :
    Except String (Runtime × List (List (Int × Int))) :=
  match X.compile script with
  | none => .error "compilation error"
  | some ast =>
    let ast := rt.merged ast
    match execStmts X.fuel ast.fns false true (initRun rt.scope) ast.stmts with
    | .error e => .error e
    | .ok st => .ok ({ rt with scope := st.scope }, st.plotsAcc)

/-- `Runtime::add_constant`: push the dataset as a read-only named
constant onto the persistent scope. -/
def Runtime.add_constant (rt : Runtime) (d : DataBlock) : Runtime :=
  { rt with scope := ⟨d.name, false, .rows d.data⟩ :: rt.scope }

/-- `ScriptBlockReader::initial_state`. -/
def initial_runtime : Runtime :=
  { scope := [], globals := none }

/-! ## Decimal codec for the reserved boundary markers (lib.rs)

`parse_markdown` smuggles the element index through a footnote label
`format!("yamdr:{}", i)` and recovers it with `str::parse::<u16>`.  The
std formatting/parsing pair is modelled by `natDigits` / `parseDigits`. -/

/-- One decimal digit character. -/
def digitChar (d : Nat) : Char :=
  match d with
  | 0 => '0' | 1 => '1' | 2 => '2' | 3 => '3' | 4 => '4'
  | 5 => '5' | 6 => '6' | 7 => '7' | 8 => '8' | _ => '9'

/-- Decimal digits, most significant first, with an explicit recursion
bound. -/
def natDigitsF : Nat → Nat → List Char
  | 0, _ => []
  | fuel + 1, n =>
    if n < 10 then [digitChar n]
    else natDigitsF fuel (n / 10) ++ [digitChar (n % 10)]

/-- Modelled from the spec: decimal digits of `n`, most significant first
(Rust `format!("{}", n)`). -/
def natDigits (n : Nat) : List Char :=
  natDigitsF (n + 1) n

def charDigit? (c : Char) : Option Nat :=
  if '0' ≤ c ∧ c ≤ '9' then some (c.toNat - 48) else none

def parseDigitsAux (acc : Nat) : List Char → Option Nat
  | [] => some acc
  | c :: rest =>
    match charDigit? c with
    | some d => parseDigitsAux (acc * 10 + d) rest
    | none => none

/-- Modelled from the spec: Rust `str::parse` for unsigned integers
(nonempty all-digit strings). -/
def parseDigits : List Char → Option Nat
  | [] => none
  | cs => parseDigitsAux 0 cs

/-! ## Custom blocks and readers (script_block.rs, code_block.rs,
plotters_block.rs, graph_block.rs) -/

/-- errors.rs `Error`. -/
inductive Error
  | CustomBlockNotImplemented (s : String)
  | CustomBlockRead (s : String)
  | UnsupportedBlockType (s : String)
deriving DecidableEq

/-- script_block.rs `OutputType`. -/
inductive OutputType
  | runningScript (lines : List LineType)
  | tableO (code : String) (head : List String) (rows : List (List String))
  | inlineO (s : String)
  | dataO (d : DataBlock)
  | chartO (code : String) (data : List (List (Int × Int)))
deriving DecidableEq

/-- script_block.rs `ScriptBlock`. -/
structure ScriptBlock where
  output : OutputType
  header : CustomBlockHeader
deriving DecidableEq

/-- The custom blocks produced by the four registered readers
(`Box<dyn CustomBlock>`). -/
inductive CBlock
  | scriptB (b : ScriptBlock)
  | codeB (header : CustomBlockHeader) (code : String)
  | plottersB (d : PlottersData)
  | graphB (input : String) (svg : String)
deriving DecidableEq

/-- lib.rs `Format`. -/
inductive Format
  | html
  | md
deriving DecidableEq

/-- script_block.rs `build_table`. -/
def build_table (head : List String) (rows : List (List String)) : List Ev :=
  .start (.table head.length) :: .start .tableHead ::
    (head.flatMap fun cell => [.start .tableCell, .text cell, .stop .tableCell]) ++
    [Ev.stop .tableHead] ++
    (rows.flatMap fun row =>
      .start .tableRow ::
        (row.flatMap fun cell => [.start .tableCell, .text cell, .stop .tableCell]) ++
        [Ev.stop .tableRow]) ++
    [Ev.stop (.table head.length)]

/-- utils.rs `html_hide_with_title`. -/
def html_hide_with_title (X : Collab) (title : String) (events : List Ev) : List Ev :=
  Ev.html ("<details><summary>" ++ X.escape_html title ++ "</summary>") ::
    events ++ [Ev.html "</details>"]

/-- Field lookup on a block header (`header.fields.get(..)`). -/
def CustomBlockHeader.field? (h : CustomBlockHeader) (k : String) : Option String :=
  (h.fields.find? (fun p => p.1 = k)).map (·.2)

/-- Insert a key into a sorted duplicate-free key list (the
`BTreeMap<String, bool>` key set of the Data renderer). -/
def insertKey (x : String) : List String → List String
  | [] => [x]
  | y :: rest =>
    if x = y then y :: rest
    else if x < y then x :: y :: rest
    else y :: insertKey x rest

/-- Sorted key set of all fields appearing in a dataset's rows. -/
def dataFieldKeys (rows : List (List (String × String))) : List String :=
  rows.foldl (fun acc row => row.foldl (fun acc p => insertKey p.1 acc) acc) []

/-- The Data renderer's derived table: index column plus one column per
field key, one row per record (`to_events`, `OutputType::Data` arm). -/
def dataTable (d : DataBlock) : List String × List (List String) :=
  let keys := dataFieldKeys d.data
  let head := "#" :: keys
  let rows := (List.range d.data.length).map fun i =>
    toString (i + 1) ::
      keys.map (fun k => ((d.data.get! i).find? (fun p => p.1 = k)).map (·.2) |>.getD "")
  (head, rows)

/-- Lines of the rendered helper table, nonempty ones only, prefixed
(the shared `table_output.lines().filter(..).map(..)` pattern of
`to_events`). -/
def prefixedTableLines (pre : String) (events : List Ev) : String :=
  let tbl := (md_render events).getD ""
  joinNl (((rustLines tbl).filter (fun l => l ≠ "")).map (pre ++ ·))

/-- script_block.rs `ScriptBlock::to_events`.  `none` models the `todo!()`
arm (a DynamicChart block rendered to markdown). -/
def ScriptBlock.to_events (X : Collab) (b : ScriptBlock) : Format → Option (List Ev)
  | .html =>
    match b.output with
    | .runningScript lines =>
      let spans := lines.map fun l =>
        match l with
        | .codeL s =>
          Ev.html ("<span class=\"script-code\">" ++ X.escape_html s ++ "</span>" ++ "\n")
        | .outputL s =>
          Ev.html ("<span class=\"script-output\">" ++ X.escape_html ("// > " ++ s) ++
            "</span>" ++ "\n")
      let events := Ev.html "<div class=\"script\"><pre>" :: spans ++ [Ev.html "</pre></div>"]
      some (match b.header.field? "hidden_title" with
        | some title => html_hide_with_title X title events
        | none => events)
    | .tableO _ head rows => some (build_table head rows)
    | .dataO d =>
      let (head, rows) := dataTable d
      let events := build_table head rows
      some (match b.header.field? "hidden_title" with
        | some title => html_hide_with_title X title events
        | none => events)
    | .inlineO out =>
      some [Ev.html ("<code class=\"inline-script\">" ++ X.escape_html out ++ "</code>")]
    | .chartO _ data => some [Ev.html (X.chart_html data)]
  | .md =>
    match b.output with
    | .runningScript lines =>
      let props := X.header_json b.header
      some [.start (.codeBlockFenced props),
        .text (linesToText (md_body_lines lines)),
        .stop (.codeBlockFenced props)]
    | .tableO code head rows =>
      let props := X.header_json b.header
      let codePart := joinNl ((rustLines code).filter (fun l => !(isOutputComment l)))
      let body := codePart ++ "\n" ++ prefixedTableLines "// > " (build_table head rows) ++ "\n"
      some [.start (.codeBlockFenced props), .text body, .stop (.codeBlockFenced props)]
    | .dataO d =>
      let props := X.header_json b.header
      let (head, rows) := dataTable d
      let body := X.data_yaml d ++ "\n" ++
        prefixedTableLines "# " (build_table head rows) ++ "\n"
      some [.start (.codeBlockFenced props), .text body, .stop (.codeBlockFenced props)]
    | .inlineO out => some [Ev.code ("_" ++ out ++ "_")]
    | .chartO _ _ => none

/-- `CustomBlock::to_events` over the four block kinds.  The HTML bodies of
code, plotters and graph blocks delegate to external collaborators. -/
def CBlock.to_events (X : Collab) (fmt : Format) : CBlock → Option (List Ev)
  | .scriptB b => b.to_events X fmt
  | .codeB header code =>
    match fmt with
    | .html => some [Ev.html (X.code_html header code)]
    | .md =>
      let props := X.header_json (CustomBlockHeader.empty "Code")
      some [.start (.codeBlockFenced props), .text code, .stop (.codeBlockFenced props)]
  | .plottersB d =>
    match fmt with
    | .html => some [Ev.html (X.plotters_html d)]
    | .md =>
      let props := X.header_json (CustomBlockHeader.empty "Plotters")
      some [.start (.codeBlockFenced props), .text (X.plotters_yaml d),
        .stop (.codeBlockFenced props)]
  | .graphB input svg =>
    match fmt with
    | .html => some [Ev.html svg]
    | .md =>
      let props := "\x7b\"t\": \"Graph\"\x7d"
      some [.start (.codeBlockFenced props), .text input, .stop (.codeBlockFenced props)]

/-- Outcome of a reader call (`Result<Option<Box<dyn CustomBlock>>>`). -/
inductive ReadOutcome
  | okSome (b : CBlock)
  | okNone
  | err (e : Error)
deriving DecidableEq

/-- script_block.rs `ScriptBlockReader`: the runtime plus the retained
datasets. -/
structure ScriptBlockReader where
  runtime : Runtime
  dataMap : List (String × DataBlock)
deriving DecidableEq

/-- `ScriptBlockReader::initial_state`. -/
def ScriptBlockReader.initial_state : ScriptBlockReader :=
  { runtime := initial_runtime, dataMap := [] }

/-- `ScriptBlockReader::can_read_block`. -/
def script_can_read_block (h : CustomBlockHeader) : Bool :=
  h.t = "DynamicTable" || h.t = "DynamicChart" || h.t = "ScriptGlobals" ||
    h.t = "Script" || h.t = "Data"

/-- `ScriptBlockReader::read_block`.  `none` models the panic of
`generate_table` on an empty row accumulator. -/
def script_read_block (X : Collab) (r : ScriptBlockReader) (h : CustomBlockHeader)
    (input : String) : Option (ScriptBlockReader × ReadOutcome) :=
  if h.t = "Script" then
    match r.runtime.run_block X input with
    | .ok (rt', lines) =>
      some ({ r with runtime := rt' },
        .okSome (.scriptB ⟨.runningScript lines, h⟩))
    | .error e => some (r, .err (.CustomBlockRead e))
  else if h.t = "ScriptGlobals" then
    match r.runtime.add_globals X input with
    | .ok rt' => some ({ r with runtime := rt' }, .okNone)
    | .error e => some (r, .err (.CustomBlockRead e))
  else if h.t = "DynamicTable" then
    match r.runtime.generate_table X input with
    | none => none
    | some (.ok (rt', (head, rows))) =>
      some ({ r with runtime := rt' },
        .okSome (.scriptB ⟨.tableO input head rows, h⟩))
    | some (.error e) => some (r, .err (.CustomBlockRead e))
  else if h.t = "DynamicChart" then
    match r.runtime.generate_chart X input with
    | .ok (rt', data) =>
      some ({ r with runtime := rt' },
        .okSome (.scriptB ⟨.chartO input data, h⟩))
    | .error e => some (r, .err (.CustomBlockRead e))
  else if h.t = "Data" then
    match X.parse_data input with
    | none => some (r, .err (.CustomBlockRead "failed to parse block"))
    | some d =>
      some ({ runtime := r.runtime.add_constant d,
              dataMap := r.dataMap ++ [(d.name, d)] },
        .okSome (.scriptB ⟨.dataO d, h⟩))
  else
    some (r, .err (.UnsupportedBlockType h.t))

/-- `ScriptBlockReader::can_read_inline`: wrapped in the reserved sentinel
at both ends and longer than 3 (the Rust length is in bytes; the model
counts characters). -/
def can_read_inline (s : String) : Bool :=
  decide (3 < s.length) && decide (s.data.head? = some '_') &&
    decide (s.data.getLast? = some '_')

/-- The characters before the first occurrence of a separator. -/
def beforeSub (sep : List Char) : List Char → List Char
  | [] => []
  | c :: rest =>
    if sep.isPrefixOf (c :: rest) then [] else c :: beforeSub sep rest

/-- `input.split(" // >").next().unwrap_or("")`. -/
def beforeOutComment (s : String) : String :=
  String.mk (beforeSub [' ', '/', '/', ' ', '>'] s.data)

/-- `ScriptBlockReader::read_inline`. -/
def script_read_inline (X : Collab) (r : ScriptBlockReader) (inline : String) :
    ScriptBlockReader × ReadOutcome :=
  let input := String.mk ((inline.data.drop 1).dropLast)
  match r.runtime.eval_line X input with
  | .ok (rt', out) =>
    ({ r with runtime := rt' },
      .okSome (.scriptB ⟨.inlineO (beforeOutComment input ++ " // > " ++ out),
        CustomBlockHeader.empty ""⟩))
  | .error e => (r, .err (.CustomBlockRead e))

/-- code_block.rs `CodeBlockReader::read_block`. -/
def code_read_block (h : CustomBlockHeader) (input : String) : ReadOutcome :=
  .okSome (.codeB h input)

/-- plotters_block.rs `PlottersBlockReader::read_block`. -/
def plotters_read_block (X : Collab) (input : String) : ReadOutcome :=
  match X.parse_plotters input with
  | some d => .okSome (.plottersB d)
  | none => .err (.CustomBlockRead "failed to parse block")

/-- graph_block.rs `read_block` (the dot parse and SVG layout are one
external call). -/
def graph_read_block (X : Collab) (input : String) : ReadOutcome :=
  match X.parse_graph input with
  | some svg => .okSome (.graphB input svg)
  | none => .err (.CustomBlockRead "error parsing graph block")

/-- The reader registry of `parse_markdown` (only the script reader
carries state). -/
structure Readers where
  script : ScriptBlockReader
deriving DecidableEq

def Readers.initial : Readers :=
  { script := ScriptBlockReader.initial_state }

/-- First-match dispatch over the registered readers, in registration
order (script, code, plotters, graph); `none` when no reader claims the
header. -/
def readers_read_block (X : Collab) (rs : Readers) (h : CustomBlockHeader)
    (input : String) : Option (Option (Readers × ReadOutcome)) :=
  if script_can_read_block h then
    some ((script_read_block X rs.script h input).map
      (fun p => ({ rs with script := p.1 }, p.2)))
  else if h.t = "Code" then
    some (some (rs, code_read_block h input))
  else if h.t = "Plotters" then
    some (some (rs, plotters_read_block X input))
  else if h.t = "Graph" then
    some (some (rs, graph_read_block X input))
  else
    none

/-! ## Extended events, boundary-marker injection and classification
(lib.rs `parse_markdown`) -/

/-- lib.rs `ExtendedEvent`. -/
inductive ExtEv
  | standard (e : Ev)
  | customB (b : CBlock)
  | externalB (b : ExternalBlock)
  | separator (id : Nat)
deriving DecidableEq

/-- The reserved label namespace `"yamdr:"`. -/
def yamdrChars : List Char := ['y', 'a', 'm', 'd', 'r', ':']

/-- The boundary-marker label `format!("yamdr:{}", i)`. -/
def yamdrLabel (i : Nat) : String :=
  String.mk (yamdrChars ++ natDigits i)

/-- `id.as_ref().starts_with("yamdr:")`. -/
def isYamdrLabel (s : String) : Bool :=
  yamdrChars.isPrefixOf s.data

/-- `str::parse::<u16>(&id[6..])`: decode the element id, failing on
non-digits or overflow past `u16::MAX`. -/
def yamdr_id? (s : String) : Option Nat :=
  match parseDigits (s.data.drop 6) with
  | some v => if v < 65536 then some v else none
  | none => none

/-- First pass of `parse_markdown`: track the nesting level, inject a
start marker before each 0→1 `Start`, and an end marker (with the
post-increment index minus one) after each 1→0 `End`. -/
def inject (level : Int) (elemI : Nat) : List Ev → List Ev
  | [] => []
  | .start t :: rest =>
    if level + 1 = 1 then
      .start (.footnoteDefinition (yamdrLabel elemI)) :: .start t ::
        inject (level + 1) elemI rest
    else
      .start t :: inject (level + 1) elemI rest
  | .stop t :: rest =>
    if level - 1 = 0 then
      .stop t :: .stop (.footnoteDefinition (yamdrLabel elemI)) ::
        inject (level - 1) (elemI + 1) rest
    else
      .stop t :: inject (level - 1) elemI rest
  | e :: rest => e :: inject level elemI rest

/-- The classifier state: the pending fenced-block header and the reader
registry. -/
structure CState where
  current : Option CustomBlockHeader
  readers : Readers
deriving DecidableEq

/-- Second pass of `parse_markdown`, one event at a time.  `none` models
the panics: a marker id that fails `u16` parsing, a reader error
(`todo!("error reading block")` / `todo!("error reading inline")`), and a
header no reader claims (`todo!("error custom block not implemented")`). -/
def classify_step (X : Collab) (st : CState) : Ev → Option (CState × List ExtEv)
  | .start (.footnoteDefinition id) =>
    if isYamdrLabel id then
      match yamdr_id? id with
      | some v => some (st, [.separator v])
      | none => none
    else
      some (st, [.standard (.start (.footnoteDefinition id))])
  | .stop (.footnoteDefinition id) =>
    if isYamdrLabel id then
      some (st, [])
    else
      some (st, [.standard (.stop (.footnoteDefinition id))])
  | .start (.codeBlockFenced prop) =>
    match X.parse_header prop with
    | some h => some ({ st with current := some h }, [])
    | none => some (st, [.standard (.start (.codeBlockFenced prop))])
  | .stop (.codeBlockFenced prop) =>
    match st.current with
    | some _ => some ({ st with current := none }, [])
    | none => some (st, [.standard (.stop (.codeBlockFenced prop))])
  | .text t =>
    match st.current with
    | some h =>
      if h.t = "External" then
        some (st, [.externalB ⟨t, h.fields⟩])
      else
        match readers_read_block X st.readers h t with
        | none => none
        | some none => none
        | some (some (rs', .okSome b)) => some ({ st with readers := rs' }, [.customB b])
        | some (some (rs', .okNone)) => some ({ st with readers := rs' }, [])
        | some (some (_, .err _)) => none
    | none => some (st, [.standard (.text t)])
  | .code c =>
    if can_read_inline c then
      match script_read_inline X st.readers.script c with
      | (r', .okSome b) =>
        some ({ st with readers := { st.readers with script := r' } }, [.customB b])
      | (r', .okNone) =>
        some ({ st with readers := { st.readers with script := r' } }, [])
      | (_, .err _) => none
    else
      some (st, [.standard (.code c)])
  | e => some (st, [.standard e])

/-- The classifier fold over the marked stream. -/
def classify (X : Collab) (st : CState) : List Ev → Option (List ExtEv)
  | [] => some []
  | e :: rest =>
    (classify_step X st e).bind fun p =>
      (classify X p.1 rest).map fun out => p.2 ++ out

/-- lib.rs `parse_markdown`: inject boundary markers, then classify.
`none` models a panic. -/
def parse_markdown (X : Collab) (evs : List Ev) : Option (List ExtEv) :=
  classify X ⟨none, Readers.initial⟩ (inject 0 0 evs)

/-! ## Whole-document and segmented rendering (lib.rs) -/

/-- lib.rs `Format::transform_extended_event`.  `none` models the
`todo!()` reached for `ExtendedEvent::External`. -/
def transform_extended_event (X : Collab) (fmt : Format) : ExtEv → Option (List Ev)
  | .standard e => some [e]
  | .customB c => c.to_events X fmt
  | .separator _ => some []
  | .externalB _ => none

/-- Transform a whole extended-event sequence (the `flat_map` of
`render_markdown` / `render_blocks`). -/
def transform_all (X : Collab) (fmt : Format) : List ExtEv → Option (List Ev)
  | [] => some []
  | e :: rest =>
    (transform_extended_event X fmt e).bind fun es =>
      (transform_all X fmt rest).map fun out => es ++ out

/-- lib.rs `Format::render`: delegate to the external HTML serializer or
to the markdown re-serializer. -/
def format_render (X : Collab) : Format → List Ev → Option String
  | .html, evs => some (X.push_html evs)
  | .md, evs => md_render evs

/-- lib.rs `render_markdown` (the rendered core; the standalone HTML page
shell around it only wraps the returned string).  `none` models a
panic. -/
def render_markdown (X : Collab) (fmt : Format) (evs : List Ev) : Option String :=
  (parse_markdown X evs).bind fun ext =>
    (transform_all X fmt ext).bind fun flat =>
      format_render X fmt flat

/-- lib.rs `MarkdownBlock`. -/
structure MarkdownBlock where
  id : Nat
  html : String
  markdown : String
  externalPayload : Option ExternalBlock
deriving DecidableEq

/-- One step of the segmenting fold of `render_blocks`: a separator opens
a new group, anything else appends to the last group
(`acc.last_mut().unwrap()` — `none` models the panic on an empty
accumulator). -/
def group_step (acc : List (Nat × List ExtEv)) (x : ExtEv) :
    Option (List (Nat × List ExtEv)) :=
  match x with
  | .separator id => some (acc ++ [(id, [])])
  | _ =>
    match acc.getLast? with
    | none => none
    | some g => some (acc.dropLast ++ [(g.1, g.2 ++ [x])])

/-- The segmenting fold of `render_blocks`. -/
def group_fold (acc : List (Nat × List ExtEv)) : List ExtEv →
    Option (List (Nat × List ExtEv))
  | [] => some acc
  | x :: rest =>
    match group_step acc x with
    | none => none
    | some acc' => group_fold acc' rest

/-- The per-group rendering of `render_blocks`: a group that is exactly
one External event keeps its payload with empty fragments; every other
group is rendered through both format renderers. -/
def build_block (X : Collab) (g : Nat × List ExtEv) : Option MarkdownBlock :=
  match g.2 with
  | [.externalB b] => some ⟨g.1, "", "", some b⟩
  | evs =>
    (transform_all X .html evs).bind fun hevs =>
      (transform_all X .md evs).bind fun mevs =>
        (md_render mevs).map fun mdStr =>
          ⟨g.1, X.push_html hevs, mdStr, none⟩

/-- lib.rs `render_blocks`: parse, segment by separators, render each
group.  `none` models a panic. -/
def render_blocks (X : Collab) (evs : List Ev) : Option (List MarkdownBlock) :=
  (parse_markdown X evs).bind fun ext =>
    (group_fold [] ext).bind fun groups =>
      groups.mapM (build_block X)

/-! ## Claim theorems -/

instance instDecEqExcept {α β : Type} [DecidableEq α] [DecidableEq β] :
    DecidableEq (Except α β) := fun x y =>
  match x, y with
  | .ok a, .ok b =>
    if h : a = b then .isTrue (h ▸ rfl) else .isFalse (fun hc => h (Except.ok.inj hc))
  | .error a, .error b =>
    if h : a = b then .isTrue (h ▸ rfl) else .isFalse (fun hc => h (Except.error.inj hc))
  | .ok _, .error _ => .isFalse (fun hc => Except.noConfusion hc)
  | .error _, .ok _ => .isFalse (fun hc => Except.noConfusion hc)

/-- A trivial instantiation of the external collaborators, used by the
concrete witnesses. -/
def defaultCollab : Collab where
  parse_header := fun _ => none
  header_json := fun _ => ""
  compile := fun _ => none
  parse_data := fun _ => none
  data_yaml := fun _ => ""
  parse_plotters := fun _ => none
  plotters_yaml := fun _ => ""
  plotters_html := fun _ => ""
  chart_html := fun _ => ""
  parse_graph := fun _ => none
  push_html := fun _ => ""
  escape_html := fun s => s
  code_html := fun _ _ => ""
  fuel := 100

def tableCollab : Collab :=
  { defaultCollab with
    compile := fun s =>
      if s = "row([1]);" then some ⟨[], [(1, .rowCall [.lit 1])]⟩
      else some ⟨[], []⟩ }

def externalCollab : Collab :=
  { defaultCollab with
    parse_header := fun p => if p = "hdrE" then some ⟨"External", [("test", "123")]⟩ else none }

def nosuchCollab : Collab :=
  { defaultCollab with
    parse_header := fun p => if p = "hdrN" then some ⟨"Nosuch", []⟩ else none }

def inlineCollab : Collab :=
  { defaultCollab with
    compile := fun s =>
      if s = "1+1" then some ⟨[], [(1, .exprStmt (.add (.lit 1) (.lit 1)))]⟩ else none }

def globalsCollab : Collab :=
  { defaultCollab with
    compile := fun s =>
      if s = "fn test(n): n + 1" then
        some ⟨[⟨"test", "n", .add (.varE "n") (.lit 1)⟩], [(1, .letv "junk" (.lit 0))]⟩
      else if s = "debug(test(5));" then
        some ⟨[], [(1, .debug (.call "test" (.lit 5)))]⟩
      else none }

def mutCollab : Collab :=
  { defaultCollab with
    compile := fun s =>
      if s = "x = 99; row([1]);" then
        some ⟨[], [(1, .assign "x" (.lit 99)), (1, .rowCall [.lit 1])]⟩
      else none }

/-- A statement binds or assigns the variable `x`. -/
def writesVar (x : String) : SStmt → Bool
  | .letv y _ => y == x
  | .assign y _ => y == x
  | _ => false

/-- Some top-level statement of a compiled unit writes `x`. -/
def astWrites (x : String) (ast : SAst) : Bool :=
  ast.stmts.any (fun p => writesVar x p.2)

/-- Script blocks read in source order against one runtime
(`parse_markdown` feeds each block of the document to the one
`ScriptBlockReader` in order). -/
def run_blocks_seq (X : Collab) (rt : Runtime) : List String → Except String Runtime
  | [] => .ok rt
  | s :: rest =>
    match rt.run_block X s with
    | .ok p => run_blocks_seq X p.1 rest
    | .error _ => .error "runtime error"

def scopeCollab : Collab :=
  { defaultCollab with
    compile := fun s =>
      if s = "let x = 5;" then some ⟨[], [(1, .letv "x" (.lit 5))]⟩
      else if s = "let y = 1;" then some ⟨[], [(1, .letv "y" (.lit 1))]⟩
      else if s = "x" then some ⟨[], [(1, .exprStmt (.varE "x"))]⟩
      else none }

/-! ## Segmentation: separator ids and partition (claim C2) -/

/-- Labels of reserved start markers in a token stream. -/
def startMarkerLabels (evs : List Ev) : List String :=
  evs.filterMap fun e =>
    match e with
    | .start (.footnoteDefinition l) => if isYamdrLabel l then some l else none
    | _ => none

/-- The reserved-namespace contract (spec §4.1): genuine document content
produces no footnote-definition start tags in the `yamdr:` namespace. -/
def noStrayMarkers (evs : List Ev) : Prop :=
  ∀ l, Ev.start (.footnoteDefinition l) ∈ evs → isYamdrLabel l = false

/-- Number of 0→1 level transitions (injected start markers). -/
def markerCount (level : Int) : List Ev → Nat
  | [] => 0
  | .start _ :: rest =>
    if level + 1 = 1 then markerCount (level + 1) rest + 1
    else markerCount (level + 1) rest
  | .stop _ :: rest => markerCount (level - 1) rest
  | _ :: rest => markerCount level rest

/-- The id the next injected start marker will carry. -/
def nextId (level : Int) (elemI : Nat) : Nat :=
  if 1 ≤ level then elemI + 1 else elemI

/-- Separator ids of an extended-event sequence, in order. -/
def extSepIds (l : List ExtEv) : List Nat :=
  l.filterMap fun e =>
    match e with
    | .separator id => some id
    | _ => none

/-- Reassemble a group list into the extended-event sequence it came
from. -/
def joinGroups (gs : List (Nat × List ExtEv)) : List ExtEv :=
  gs.flatMap fun g => .separator g.1 :: g.2

/-! ## Rerender idempotence of script and table bodies (claim C1) -/

/-- Drop the reserved output-comment lines
(`lines().filter(|l| !l.starts_with("// > "))`). -/
def stripOut (ls : List String) : List String :=
  ls.filter (fun l => !(isOutputComment l))

/-- The code lines of a body with their 1-based source positions. -/
def keptLines (i : Nat) : List String → List (Nat × String)
  | [] => []
  | l :: rest =>
    if isOutputComment l then keptLines (i + 1) rest
    else (i + 1, l) :: keptLines (i + 1) rest

/-- One render pass of a Script block body: run, interleave the debug log,
strip reserved lines, and serialize back to fence-body lines
(`run_block` followed by `to_events` in markdown format).  The engine
(compile + execute, from a fixed replayed runtime state) is the function
`engine` from source lines to the debug log. -/
def renderLines (engine : List String → List (Nat × String)) (ls : List String) :
    List String :=
  md_body_lines (run_block_lines ls (engine ls))

/-- The rendered helper-table lines of a DynamicTable block (nonempty
lines of the markdown rendering of `build_table`). -/
def tableMdLines (head : List String) (rows : List (List String)) : List String :=
  (rustLines ((md_render (build_table head rows)).getD "")).filter (fun l => l ≠ "")

/-- One render pass of a DynamicTable block body at line level: collect
the rows (`generate_table`), strip reserved lines from the code, append
the rendered table as output-comment lines (`to_events`, table arm, Md).
`none` models the panic on an empty row accumulator. -/
def table_render_lines (rowsOf : List String → List (List String))
    (code : List String) : Option (List String) :=
  match rowsOf code with
  | [] => none
  | r :: rs => some (stripOut code ++ (tableMdLines r rs).map ("// > " ++ ·))

/-- A concrete engine for the spec scenario: on any body whose code lines
are exactly `debug(1+1);`, log `"2"` at the position of that line. -/
def wEngine (ls : List String) : List (Nat × String) :=
  if stripOut ls = ["debug(1+1);"] then
    match (keptLines 0 ls)[0]? with
    | some pl => [(pl.1, "2")]
    | none => []
  else []

/-- The markdown fence body emitted for a Data block (`to_events`, Data
arm, Md format): the dataset's yaml dump followed by the derived helper
table as `# ` yaml-comment lines. -/
def data_md_body (X : Collab) (d : DataBlock) : String :=
  X.data_yaml d ++ "\n" ++
    prefixedTableLines "# " (build_table (dataTable d).1 (dataTable d).2) ++ "\n"

/-- A collaborator bundle for concrete rerender scenarios: an engine that
knows the expression `1+1` and treats a trailing ` // > ` result comment
as dead text, a one-record dataset codec whose parser skips the `# `
comment lines, a verbatim plotters yaml codec, and a fixed graph layout. -/
def c1Collab : Collab :=
  { defaultCollab with
    compile := fun s =>
      if s = "1+1" || s = "1+1 // > 2" then
        some ⟨[], [(1, .exprStmt (.add (.lit 1) (.lit 1)))]⟩
      else none
    parse_data := fun s =>
      if s = "name: d\n# | # | a |\n# |---|---|\n# | 1 | 1 |\n" then
        some ⟨"d", [], [[("a", "1")]]⟩
      else none
    data_yaml := fun _ => "name: d"
    parse_plotters := fun s => some ⟨s⟩
    plotters_yaml := fun d => d.raw
    parse_graph := fun s => if s = "graph" then some "<svg/>" else none }

/-- A collaborator whose engine understands one chart script. -/
def chartCollab : Collab :=
  { defaultCollab with
    compile := fun s =>
      if s = "plot([[1, 2]]);" then some ⟨[], [(1, .plotCall [(.lit 1, .lit 2)])]⟩
      else none }

/-! ## Theorems -/

theorem md_render_run_append (xs ys : List Ev) (st : RState) :
    md_render_run st (xs ++ ys) =
      (md_render_run st xs).bind
        (fun p => (md_render_run p.2 ys).map (fun q => (p.1 ++ q.1, q.2))) := by
  induction xs generalizing st with
  | nil =>
    simp only [List.nil_append, md_render_run, Option.some_bind]
    cases md_render_run st ys with
    | none => rfl
    | some q => simp
  | cons e rest ih =>
    simp only [List.cons_append, md_render_run]
    cases md_render_step st e with
    | none => rfl
    | some p =>
      simp only [Option.some_bind, List.append_eq]
      rw [ih]
      cases md_render_run p.2 rest with
      | none => rfl
      | some q =>
        simp only [Option.some_bind, Option.map_some']
        cases md_render_run q.2 ys with
        | none => rfl
        | some r => simp [String.append_assoc]

/-! ## Round trip of the re-serializer on canonical documents (claim C3) -/

theorem bumpLast_concat (l : List Nat) (n : Nat) :
    bumpLast (l ++ [n]) = l ++ [n + 1] := by
  induction l with
  | nil => rfl
  | cons a rest ih =>
    cases rest with
    | nil => rfl
    | cons b r => simpa [bumpLast] using ih

theorem bumpLast_length (l : List Nat) : (bumpLast l).length = l.length := by
  induction l with
  | nil => rfl
  | cons a rest ih =>
    cases rest with
    | nil => rfl
    | cons b r => simpa [bumpLast] using ih

theorem StaysOut.append {stk : List MTag} {xs ys : List Ev} {o₁ o₂ : String}
    (h₁ : StaysOut stk xs o₁) (h₂ : StaysOut stk ys o₂) :
    StaysOut stk (xs ++ ys) (o₁ ++ o₂) := by
  intro cnts
  obtain ⟨c₁, l₁, e₁⟩ := h₁ cnts
  obtain ⟨c₂, l₂, e₂⟩ := h₂ c₁
  exact ⟨c₂, l₂.trans l₁, by rw [md_render_run_append, e₁]; simp [e₂]⟩

theorem staysOut_text {stk : List MTag} (s : String)
    (h₁ : stk.getLast? ≠ some MTag.codeBlockIndented)
    (h₂ : stk.head? ≠ some MTag.blockQuote) :
    StaysOut stk [.text s] s := by
  intro cnts
  refine ⟨bumpLast cnts, bumpLast_length cnts, ?_⟩
  simp [md_render_run, md_render_step, h₁, h₂]

theorem staysOut_softBreak {stk : List MTag} : StaysOut stk [.softBreak] "\n" := by
  intro cnts
  exact ⟨bumpLast cnts, bumpLast_length cnts, by simp [md_render_run, md_render_step]⟩

theorem staysOut_inline (i : Inline) :
    StaysOut [.paragraph] (inlineEvents i) (inlineSrc i) := by
  cases i <;>
    · intro cnts
      refine ⟨bumpLast cnts, bumpLast_length cnts, ?_⟩
      simp [inlineEvents, inlineSrc, md_render_run, md_render_step, start_tag, end_tag,
        bumpLast_concat, List.dropLast_concat, String.append_assoc]

theorem staysOut_line (l : List Inline) :
    StaysOut [.paragraph] (l.flatMap inlineEvents) (strConcat (l.map inlineSrc)) := by
  induction l with
  | nil => exact fun cnts => ⟨cnts, rfl, by simp [md_render_run, strConcat]⟩
  | cons i rest ih =>
    simpa [strConcat] using (staysOut_inline i).append ih

theorem staysOut_joinSB_para (lines : List (List Inline)) :
    StaysOut [.paragraph] (joinSoftBreak (lines.map (·.flatMap inlineEvents)))
      (joinNl (lines.map (fun l => strConcat (l.map inlineSrc)))) := by
  induction lines with
  | nil => exact fun cnts => ⟨cnts, rfl, by simp [md_render_run, joinSoftBreak, joinNl]⟩
  | cons l rest ih =>
    cases rest with
    | nil =>
      simpa [joinSoftBreak, joinNl] using staysOut_line l
    | cons l₂ r =>
      have step := (staysOut_line l).append (staysOut_softBreak.append ih)
      simpa [joinSoftBreak, joinNl, String.append_assoc] using step

theorem staysOut_quote_lines (lines : List String) :
    StaysOut [.blockQuote, .paragraph] (joinSoftBreak (lines.map (fun s => [Ev.text s])))
      (joinNl (lines.map ("> " ++ ·))) := by
  induction lines with
  | nil => exact fun cnts => ⟨cnts, rfl, by simp [md_render_run, joinSoftBreak, joinNl]⟩
  | cons l rest ih =>
    have hl : StaysOut [.blockQuote, .paragraph] [Ev.text l] ("> " ++ l) := by
      intro cnts
      refine ⟨bumpLast cnts, bumpLast_length cnts, ?_⟩
      simp [md_render_run, md_render_step]
    cases rest with
    | nil => simpa [joinSoftBreak, joinNl] using hl
    | cons l₂ r =>
      have step := hl.append (staysOut_softBreak.append ih)
      simpa [joinSoftBreak, joinNl, String.append_assoc] using step

theorem staysOut_cell (stk : List MTag) (c : String)
    (hhead : stk.head? ≠ some MTag.blockQuote) :
    StaysOut stk [.start .tableCell, .text c, .stop .tableCell] ("| " ++ c ++ " ") := by
  intro cnts
  refine ⟨bumpLast cnts, bumpLast_length cnts, ?_⟩
  simp [md_render_run, md_render_step, start_tag, end_tag, bumpLast_concat,
    List.dropLast_concat, List.getLast?_concat, hhead, String.append_assoc]

theorem staysOut_cells (stk : List MTag) (cs : List String)
    (hhead : stk.head? ≠ some MTag.blockQuote) :
    StaysOut stk (cellsEvents cs) (strConcat (cs.map (fun c => "| " ++ c ++ " "))) := by
  induction cs with
  | nil => exact fun cnts => ⟨cnts, rfl, by simp [md_render_run, cellsEvents, strConcat]⟩
  | cons c rest ih =>
    simpa [cellsEvents, strConcat] using (staysOut_cell stk c hhead).append ih

theorem staysOut_table_row (n : Nat) (r : List String) :
    StaysOut [.table n] (rowEvents r) (rowSrc r) := by
  intro cnts
  obtain ⟨c₂, l₂, e₂⟩ :=
    staysOut_cells [.table n, .tableRow] r (by simp) (bumpLast cnts ++ [0])
  refine ⟨(bumpLast c₂).dropLast, ?_, ?_⟩
  · simp [List.length_dropLast, bumpLast_length, l₂]
  simp only [rowEvents, List.cons_append, List.nil_append, md_render_run, md_render_step,
    start_tag, Option.pure_def, Option.bind_eq_bind, Option.some_bind, List.append_eq]
  rw [md_render_run_append, e₂]
  simp [md_render_run, md_render_step, end_tag, String.append_assoc, rowSrc]

theorem staysOut_table_rows (n : Nat) (rows : List (List String)) :
    StaysOut [.table n] (rows.flatMap rowEvents) (strConcat (rows.map rowSrc)) := by
  induction rows with
  | nil => exact fun cnts => ⟨cnts, rfl, by simp [md_render_run, strConcat]⟩
  | cons r rest ih =>
    simpa [strConcat] using (staysOut_table_row n r).append ih

theorem ulist_items_run (items : List String) (c : Nat) :
    md_render_run ⟨[.list none], [c]⟩
        (items.flatMap (fun s => [.start .item, .text s, .stop .item]))
      = some (ulistItemsSrc c items, ⟨[.list none], [c + items.length]⟩) := by
  induction items generalizing c with
  | nil => simp [md_render_run, ulistItemsSrc]
  | cons s rest ih =>
    have ihc := ih (c + 1)
    simp only [List.flatMap_cons, List.cons_append]
    simp [md_render_run, md_render_step, start_tag, end_tag, bumpLast, repStr,
      ulistItemsSrc, ihc, String.append_assoc, Nat.add_comm, Nat.add_assoc,
      Nat.add_left_comm]

theorem olist_items_run (items : List String) (i c : Nat) :
    md_render_run ⟨[.list (some i)], [c]⟩
        (items.flatMap (fun s => [.start .item, .text s, .stop .item]))
      = some (olistItemsSrc c i items, ⟨[.list (some i)], [c + items.length]⟩) := by
  induction items generalizing c with
  | nil => simp [md_render_run, olistItemsSrc]
  | cons s rest ih =>
    have ihc := ih (c + 1)
    simp only [List.flatMap_cons, List.cons_append]
    simp [md_render_run, md_render_step, start_tag, end_tag, bumpLast, repStr,
      olistItemsSrc, ihc, String.append_assoc, Nat.add_comm, Nat.add_assoc,
      Nat.add_left_comm]

theorem joinNl_cons_strConcat (x : String) (l : List String) :
    joinNl (x :: l) = x ++ strConcat (l.map ("\n" ++ ·)) := by
  induction l generalizing x with
  | nil => simp [joinNl, strConcat]
  | cons y r ih => simp [joinNl, strConcat, ih y, String.append_assoc]

theorem ulistItemsSrc_shift (items : List String) (c : Nat) :
    ulistItemsSrc (c + 1) items = strConcat (items.map (fun s => "\n" ++ ("- " ++ s))) := by
  induction items generalizing c with
  | nil => rfl
  | cons s rest ih => simp [ulistItemsSrc, strConcat, ih (c + 1)]

theorem ulistItemsSrc_zero (items : List String) :
    ulistItemsSrc 0 items = joinNl (items.map ("- " ++ ·)) := by
  cases items with
  | nil => rfl
  | cons s rest =>
    simp [ulistItemsSrc, ulistItemsSrc_shift, joinNl_cons_strConcat, List.map_map,
      Function.comp_def]

theorem olistItemsSrc_shift (items : List String) (i c : Nat) :
    olistItemsSrc (c + 1) i items =
      strConcat ((numberItems (i + c + 1) items).map ("\n" ++ ·)) := by
  induction items generalizing c with
  | nil => rfl
  | cons s rest ih =>
    have h := ih (c + 1)
    simp only [olistItemsSrc, numberItems, List.map_cons, strConcat]
    rw [h]
    have h2 : i + (c + 1) = i + c + 1 := by omega
    simp [h2, String.append_assoc]

theorem olistItemsSrc_zero (items : List String) (i : Nat) :
    olistItemsSrc 0 i items = joinNl (numberItems i items) := by
  cases items with
  | nil => rfl
  | cons s rest =>
    simp only [olistItemsSrc, numberItems, olistItemsSrc_shift, joinNl_cons_strConcat]
    simp [String.append_assoc]

theorem dropLast_eq_nil_of_len_one {l : List Nat} (h : l.length = 1) : l.dropLast = [] := by
  obtain ⟨a, rfl⟩ := List.length_eq_one.mp h
  rfl

theorem elem_run (el : DocElem) :
    md_render_run ⟨[], []⟩ (elemEvents el) = some (elemSrc el, ⟨[], []⟩) := by
  cases el with
  | headingE lvl s =>
    cases lvl <;>
      simp [elemEvents, elemSrc, headingMark, md_render_run, md_render_step, start_tag,
        end_tag, bumpLast, String.append_assoc]
  | fenced props body =>
    simp [elemEvents, elemSrc, md_render_run, md_render_step, start_tag, end_tag,
      bumpLast, String.append_assoc]
  | hrule =>
    simp [elemEvents, elemSrc, md_render_run, md_render_step, bumpLast]
  | para lines =>
    obtain ⟨c', hl, e'⟩ := staysOut_joinSB_para lines [0]
    have hnil : (bumpLast c').dropLast = [] :=
      dropLast_eq_nil_of_len_one (by rw [bumpLast_length]; simpa using hl)
    simp only [elemEvents, md_render_run]
    rw [show md_render_step ⟨[], []⟩ (Ev.start .paragraph) =
      some ("", ⟨[.paragraph], [0]⟩) from rfl]
    simp only [Option.some_bind, List.append_eq]
    rw [md_render_run_append, e']
    simp [md_render_run, md_render_step, end_tag, hnil, elemSrc, String.append_assoc]
  | quote lines =>
    obtain ⟨c', hl, e'⟩ := staysOut_quote_lines lines [1, 0]
    have hl2 : c'.length = 2 := by simpa using hl
    have hnil : ((bumpLast ((bumpLast c').dropLast)).dropLast) = [] := by
      refine dropLast_eq_nil_of_len_one ?_
      rw [bumpLast_length, List.length_dropLast, bumpLast_length, hl2]
    simp only [elemEvents, md_render_run]
    rw [show md_render_step ⟨[], []⟩ (Ev.start .blockQuote) =
      some ("", ⟨[.blockQuote], [0]⟩) from rfl]
    simp only [Option.some_bind, md_render_run]
    rw [show md_render_step ⟨[.blockQuote], [0]⟩ (Ev.start .paragraph) =
      some ("", ⟨[.blockQuote, .paragraph], [1, 0]⟩) from rfl]
    simp only [Option.some_bind, List.append_eq]
    rw [md_render_run_append, e']
    simp [md_render_run, md_render_step, end_tag, hnil, elemSrc, String.append_assoc]
  | ulist items =>
    simp only [elemEvents, md_render_run]
    rw [show md_render_step ⟨[], []⟩ (Ev.start (.list none)) =
      some ("", ⟨[.list none], [0]⟩) from rfl]
    simp only [Option.some_bind, List.append_eq]
    rw [md_render_run_append, ulist_items_run items 0]
    simp [md_render_run, md_render_step, end_tag, bumpLast, elemSrc,
      ulistItemsSrc_zero, String.append_assoc]
  | olist start items =>
    simp only [elemEvents, md_render_run]
    rw [show md_render_step ⟨[], []⟩ (Ev.start (.list (some start))) =
      some ("", ⟨[.list (some start)], [0]⟩) from rfl]
    simp only [Option.some_bind, List.append_eq]
    rw [md_render_run_append, olist_items_run items start 0]
    simp [md_render_run, md_render_step, end_tag, bumpLast, elemSrc,
      olistItemsSrc_zero, String.append_assoc]
  | tableE header rows =>
    obtain ⟨c₁, hl₁, e₁⟩ := staysOut_cells [.table header.length, .tableHead] header
      (by simp) [1, 0]
    have hl₁2 : c₁.length = 2 := by simpa using hl₁
    obtain ⟨c₂, hl₂, e₂⟩ := staysOut_table_rows header.length rows ((bumpLast c₁).dropLast)
    have hnil : ((bumpLast c₂).dropLast) = [] := by
      refine dropLast_eq_nil_of_len_one ?_
      rw [bumpLast_length, hl₂, List.length_dropLast, bumpLast_length, hl₁2]
    simp only [elemEvents, md_render_run]
    rw [show md_render_step ⟨[], []⟩ (Ev.start (.table header.length)) =
      some ("", ⟨[.table header.length], [0]⟩) from rfl]
    simp only [Option.some_bind, md_render_run]
    rw [show md_render_step ⟨[.table header.length], [0]⟩ (Ev.start .tableHead) =
      some ("", ⟨[.table header.length, .tableHead], [1, 0]⟩) from rfl]
    simp only [Option.some_bind, List.append_eq]
    rw [List.append_assoc, List.append_assoc, md_render_run_append, e₁]
    simp only [Option.some_bind, List.singleton_append, md_render_run]
    rw [show md_render_step ⟨[.table header.length, .tableHead], c₁⟩ (Ev.stop .tableHead) =
      some ("|\n" ++ repStr header.length "|---" ++ "|\n",
        ⟨[.table header.length], (bumpLast c₁).dropLast⟩) by
      simp [md_render_step, end_tag]]
    simp only [md_render_run, Option.some_bind, List.append_eq, List.nil_append]
    rw [md_render_run_append, e₂]
    simp [md_render_run, md_render_step, end_tag, hnil, elemSrc, rowSrc,
      String.append_assoc]

/-- C3 core: rendering the canonical token stream reproduces the canonical
text, element by element. -/
theorem docEvents_run (d : List DocElem) :
    md_render_run ⟨[], []⟩ (docEvents d) = some (docSrc d, ⟨[], []⟩) := by
  induction d with
  | nil => simp [docEvents, docSrc, md_render_run, strConcat]
  | cons el rest ih =>
    have h := elem_run el
    simp only [docEvents, List.flatMap_cons]
    rw [md_render_run_append, h]
    simp only [Option.some_bind]
    rw [show rest.flatMap elemEvents = docEvents rest from rfl, ih]
    simp [docSrc, strConcat]

theorem charDigit?_digitChar (d : Nat) (h : d < 10) :
    charDigit? (digitChar d) = some d := by
  interval_cases d <;> decide

theorem parseDigitsAux_append (acc : Nat) (xs ys : List Char) :
    parseDigitsAux acc (xs ++ ys) =
      (parseDigitsAux acc xs).bind (fun a => parseDigitsAux a ys) := by
  induction xs generalizing acc with
  | nil => simp [parseDigitsAux]
  | cons c rest ih =>
    simp only [List.cons_append, parseDigitsAux]
    cases charDigit? c with
    | none => rfl
    | some d => simp [ih]

theorem parseDigitsAux_natDigitsF (fuel : Nat) :
    ∀ n acc, n < fuel →
      parseDigitsAux acc (natDigitsF fuel n) =
        some (acc * 10 ^ (natDigitsF fuel n).length + n) := by
  induction fuel with
  | zero => omega
  | succ fuel ih =>
    intro n acc hn
    by_cases h : n < 10
    · simp [natDigitsF, h, parseDigitsAux, charDigit?_digitChar n h]
    · have hdiv : n / 10 < n := Nat.div_lt_self (by omega) (by omega)
      simp only [natDigitsF, if_neg h]
      rw [parseDigitsAux_append, ih (n / 10) acc (by omega)]
      simp only [Option.some_bind, parseDigitsAux,
        charDigit?_digitChar _ (Nat.mod_lt n (by omega))]
      congr 1
      simp only [List.length_append, List.length_singleton]
      rw [pow_succ]
      have hmod : n = 10 * (n / 10) + n % 10 := (Nat.div_add_mod n 10).symm
      ring_nf
      omega

theorem parseDigitsAux_natDigits (n acc : Nat) :
    parseDigitsAux acc (natDigits n) = some (acc * 10 ^ (natDigits n).length + n) :=
  parseDigitsAux_natDigitsF (n + 1) n acc (by omega)

theorem natDigits_ne_nil (n : Nat) : natDigits n ≠ [] := by
  unfold natDigits natDigitsF
  by_cases h : n < 10 <;> simp [h]

theorem parseDigits_natDigits (n : Nat) : parseDigits (natDigits n) = some n := by
  have h := natDigits_ne_nil n
  rw [parseDigits.eq_def]
  match hd : natDigits n with
  | [] => exact absurd hd h
  | c :: rest =>
    rw [← hd]
    have := parseDigitsAux_natDigits n 0
    simp only [Nat.zero_mul, Nat.zero_add] at this
    rw [hd] at this ⊢
    exact this

/-- C3: for every markdown document without custom blocks (canonical
fragment `DocElem`), the markdown re-serializer reproduces the canonical
source text exactly; hence retokenizing its output yields the same token
stream as tokenizing the original document directly. -/
theorem md_reserialization_roundtrip (d : List DocElem) :
    md_render (docEvents d) = some (docSrc d) := by
  simp [md_render, docEvents_run]

/-- C10: `generate_table` is total only when the body accumulated at least
one row: with rows `r :: rs` it returns `r` as the header and `rs` as the
body (threading the mutated scope back into the runtime); with zero
accumulated rows it panics (`split_off(1)`) instead of returning an
error. -/
theorem generate_table_totality (X : Collab) (rt : Runtime) (script : String)
    (ast : SAst) (st : RunState)
    (hc : X.compile script = some ast)
    (hr : execStmts X.fuel (rt.merged ast).fns true false (initRun rt.scope)
      (rt.merged ast).stmts = .ok st) :
    (st.rowsAcc = [] → rt.generate_table X script = none) ∧
    (∀ r rs, st.rowsAcc = r :: rs →
      rt.generate_table X script =
        some (.ok ({ rt with scope := st.scope }, (r, rs)))) := by
  constructor
  · intro h0
    simp [Runtime.generate_table, hc, hr, h0]
  · intro r rs hrr
    simp [Runtime.generate_table, hc, hr, hrr]

theorem generate_table_totality_witness :
    Runtime.generate_table tableCollab initial_runtime "row([1]);" =
        some (.ok (initial_runtime, (["1"], []))) ∧
    Runtime.generate_table tableCollab initial_runtime "let y = 1;" = none := by
  constructor
  · exact (generate_table_totality tableCollab initial_runtime "row([1]);"
      ⟨[], [(1, .rowCall [.lit 1])]⟩ ⟨[], [], [["1"]], [], .unit⟩
      (by decide) (by decide)).2 ["1"] [] (by decide)
  · exact (generate_table_totality tableCollab initial_runtime "let y = 1;"
      ⟨[], []⟩ ⟨[], [], [], [], .unit⟩ (by decide) (by decide)).1 (by decide)

theorem transform_all_none_of_mem (X : Collab) (fmt : Format) (evs : List ExtEv)
    (e : ExtEv) (hmem : e ∈ evs) (hnone : transform_extended_event X fmt e = none) :
    transform_all X fmt evs = none := by
  induction evs with
  | nil => simp at hmem
  | cons x rest ih =>
    rcases List.mem_cons.mp hmem with h | h
    · subst h
      simp [transform_all, hnone]
    · simp only [transform_all, ih h, Option.map_none']
      cases transform_extended_event X fmt x <;> rfl

/-- C9: rendering a whole document that contains an External block panics
(the `todo!()` of `transform_extended_event`) in both output formats;
External blocks are produced by the classifier for the reserved header tag
and are handled only by the segmented `render_blocks` path, and there only
as groups that consist of exactly one External event — a group mixing an
External event with anything else panics as well. -/
theorem external_blocks_only_segmented :
    (∀ (X : Collab) (fmt : Format) (b : ExternalBlock),
      transform_extended_event X fmt (.externalB b) = none) ∧
    (∀ (X : Collab) (fmt : Format) (evs : List Ev) (ext : List ExtEv) (b : ExternalBlock),
      parse_markdown X evs = some ext → ExtEv.externalB b ∈ ext →
      render_markdown X fmt evs = none) ∧
    (∀ (X : Collab) (st : CState) (h : CustomBlockHeader) (t : String),
      st.current = some h → h.t = "External" →
      classify_step X st (.text t) = some (st, [.externalB ⟨t, h.fields⟩])) ∧
    (∀ (X : Collab) (id : Nat) (b : ExternalBlock),
      build_block X (id, [.externalB b]) = some ⟨id, "", "", some b⟩) ∧
    (∀ (X : Collab) (id : Nat) (evs : List ExtEv) (b : ExternalBlock),
      ExtEv.externalB b ∈ evs → (∀ b', evs ≠ [ExtEv.externalB b']) →
      build_block X (id, evs) = none) := by
  refine ⟨fun X fmt b => rfl, ?_, ?_, fun X id b => rfl, ?_⟩
  · intro X fmt evs ext b hp hmem
    simp only [render_markdown, hp, Option.some_bind]
    rw [transform_all_none_of_mem X fmt ext (.externalB b) hmem rfl]
    rfl
  · intro X st h t hcur hext
    simp [classify_step, hcur, hext]
  · intro X id evs b hmem hne
    rcases evs with _ | ⟨e, rest⟩
    · simp at hmem
    rcases rest with _ | ⟨e₂, rest⟩
    · cases e with
      | externalB b' => exact absurd rfl (hne b')
      | standard ev => simp at hmem
      | customB c => simp at hmem
      | separator i => simp at hmem
    · have hall : transform_all X .html (e :: e₂ :: rest) = none :=
        transform_all_none_of_mem X .html _ (.externalB b) hmem rfl
      cases e <;> simp [build_block, hall]

theorem external_blocks_only_segmented_witness :
    render_markdown externalCollab .md
      [.start (.codeBlockFenced "hdrE"), .text "External body", .stop (.codeBlockFenced "hdrE")]
      = none := by
  exact external_blocks_only_segmented.2.1 externalCollab .md
    [.start (.codeBlockFenced "hdrE"), .text "External body", .stop (.codeBlockFenced "hdrE")]
    [.separator 0, .externalB ⟨"External body", [("test", "123")]⟩]
    ⟨"External body", [("test", "123")]⟩ (by decide) (by decide)

/-- C5 counterexample: a fenced block whose header parses to the unclaimed
tag "Nosuch" makes `parse_markdown` panic
(`todo!("error custom block not implemented")`, modelled as `none`): no
`UnknownBlockType`-style error value is surfaced to the caller — the
function's return type (`Vec<ExtendedEvent>`) has no error channel at
all, and the never-constructed `Error::CustomBlockNotImplemented` variant
is not produced. -/
theorem unknown_block_type_counterexample :
    parse_markdown nosuchCollab
      [.start (.codeBlockFenced "hdrN"), .text "body", .stop (.codeBlockFenced "hdrN")]
      = none := by decide

/-- C5 amended: when a fenced block's header parses but no registered
reader's `can_read_block` predicate claims its tag, the classifier panics
(`todo!`) — fatal and never a silent drop — instead of surfacing an
`UnknownBlockType` error value to the caller. -/
theorem unknown_block_type_panics (X : Collab) (st : CState)
    (h : CustomBlockHeader) (t : String)
    (hcur : st.current = some h) (hext : h.t ≠ "External")
    (hs : script_can_read_block h = false) (hcode : h.t ≠ "Code")
    (hplot : h.t ≠ "Plotters") (hgraph : h.t ≠ "Graph") :
    classify_step X st (.text t) = none := by
  simp [classify_step, hcur, hext, readers_read_block, hs, hcode, hplot, hgraph]

theorem unknown_block_type_panics_witness :
    classify_step nosuchCollab ⟨some ⟨"Nosuch", []⟩, Readers.initial⟩ (.text "body") = none :=
  unknown_block_type_panics nosuchCollab ⟨some ⟨"Nosuch", []⟩, Readers.initial⟩
    ⟨"Nosuch", []⟩ "body" rfl (by decide) (by decide) (by decide) (by decide) (by decide)

/-- C8 counterexample: the inline code span `_1_` has length 3 > 2 and is
wrapped in the reserved sentinel at both ends, yet the classifier leaves
it as a literal `Standard` code event: `can_read_inline` requires length
strictly greater than 3 (`inline.len() > 3`), not greater than 2. -/
theorem inline_sentinel_length_counterexample :
    can_read_inline "_1_" = false ∧
    classify_step defaultCollab ⟨none, Readers.initial⟩ (.code "_1_")
      = some (⟨none, Readers.initial⟩, [.standard (.code "_1_")]) := by
  constructor <;> decide

/-- C8 amended: every inline code span wrapped in the reserved sentinel at
both ends with length greater than 3 (bytes in Rust, characters here) is
an inline-expression candidate: `can_read_inline` accepts it and the
classifier routes it to the script reader's inline dispatch, so it is
evaluated (a custom inline block when evaluation succeeds, a panic
otherwise) and never passed through as a literal code event. -/
theorem inline_sentinel_routes (s : String)
    (hlen : 3 < s.length) (hh : s.data.head? = some '_')
    (hl : s.data.getLast? = some '_') :
    can_read_inline s = true ∧
    (∀ (X : Collab) (st : CState) (p : CState × List ExtEv),
      classify_step X st (.code s) = some p →
      ∃ b : ScriptBlock, p.2 = [.customB (.scriptB b)]) := by
  have hread : can_read_inline s = true := by
    simp [can_read_inline, hlen, hh, hl]
  refine ⟨hread, ?_⟩
  intro X st p hp
  simp only [classify_step, hread, if_true] at hp
  rcases he : (st.readers.script.runtime.eval_line X
      (String.mk ((s.data.drop 1).dropLast))) with e | v
  · rw [script_read_inline, he] at hp
    simp at hp
  · rw [script_read_inline, he] at hp
    simp only [Option.some.injEq] at hp
    exact ⟨_, by rw [← hp]⟩

theorem inline_sentinel_routes_witness :
    can_read_inline "_1+1_" = true ∧
    ∃ b : ScriptBlock,
      (⟨⟨none, Readers.initial⟩,
        [.customB (.scriptB ⟨.inlineO "1+1 // > 2", CustomBlockHeader.empty ""⟩)]⟩ :
          CState × List ExtEv).2 = [.customB (.scriptB b)] := by
  refine ⟨(inline_sentinel_routes "_1+1_" (by decide) (by decide) (by decide)).1, ?_⟩
  exact (inline_sentinel_routes "_1+1_" (by decide) (by decide) (by decide)).2
    inlineCollab ⟨none, Readers.initial⟩ _ (by decide)

/-- C6: reading a ScriptGlobals block stores only the function definitions
of its compiled unit (top-level statements dropped), replacing any earlier
globals unit; every subsequently compiled unit is merged with exactly
those functions and executes exactly its own top-level statements — the
globals' statements never re-execute. -/
theorem globals_merge_functions_only (X : Collab) (rt rt' : Runtime) (src : String)
    (g : SAst) (hc : X.compile src = some g)
    (ha : rt.add_globals X src = .ok rt') :
    rt'.globals = some (clone_functions_only g) ∧
    rt'.scope = rt.scope ∧
    (∀ ast : SAst, rt'.merged ast = ⟨ast.fns ++ g.fns, ast.stmts⟩) ∧
    (∀ (src₂ : String) (g₂ : SAst) (rt'' : Runtime), X.compile src₂ = some g₂ →
      rt'.add_globals X src₂ = .ok rt'' → rt''.globals = some (clone_functions_only g₂)) ∧
    (∀ (src₂ : String) (ast : SAst), X.compile src₂ = some ast →
      rt'.run_block X src₂ =
        match execStmts X.fuel (ast.fns ++ g.fns) false false (initRun rt'.scope)
            ast.stmts with
        | .error e => .error e
        | .ok st => .ok ({ rt' with scope := st.scope },
            run_block_lines (rustLines src₂) st.log)) := by
  have hrt' : rt' = { rt with globals := some (clone_functions_only g) } := by
    simp only [Runtime.add_globals, hc] at ha
    exact (Except.ok.inj ha).symm
  subst hrt'
  refine ⟨rfl, rfl, ?_, ?_, ?_⟩
  · intro ast
    simp [Runtime.merged, ast_merge, clone_functions_only]
  · intro src₂ g₂ rt'' hc₂ ha₂
    simp only [Runtime.add_globals, hc₂] at ha₂
    exact (Except.ok.inj ha₂).symm ▸ rfl
  · intro src₂ ast hc₂
    simp [Runtime.run_block, hc₂, Runtime.merged, ast_merge, clone_functions_only]

theorem globals_merge_functions_only_witness :
    Runtime.run_block globalsCollab
      ⟨[], some ⟨[⟨"test", "n", .add (.varE "n") (.lit 1)⟩], []⟩⟩ "debug(test(5));" =
      .ok (⟨[], some ⟨[⟨"test", "n", .add (.varE "n") (.lit 1)⟩], []⟩⟩,
        [.codeL "debug(test(5));", .outputL "6"]) := by
  rw [(globals_merge_functions_only globalsCollab initial_runtime
    ⟨[], some ⟨[⟨"test", "n", .add (.varE "n") (.lit 1)⟩], []⟩⟩ "fn test(n): n + 1"
    ⟨[⟨"test", "n", .add (.varE "n") (.lit 1)⟩], [(1, .letv "junk" (.lit 0))]⟩
    (by decide) (by decide)).2.2.2.2 "debug(test(5));"
    ⟨[], [(1, .debug (.call "test" (.lit 5)))]⟩ (by decide)]
  decide

/-- C7 counterexample: a DynamicTable body that assigns to the scope
variable `x` leaves `x = 99` in the persistent scope after
`generate_table` returns — the body runs on a disposable engine but
against the persistent scope passed by mutable reference
(`engine.run_ast_with_scope(&mut self.scope, &ast)`), so its mutations
are kept, contradicting "its own mutations are discarded after the
call". -/
theorem table_scope_mutation_counterexample :
    Runtime.generate_table mutCollab ⟨[⟨"x", true, .int 5⟩], none⟩ "x = 99; row([1]);"
      = some (.ok (⟨[⟨"x", true, .int 99⟩], none⟩, (["1"], []))) ∧
    ([⟨"x", true, .int 99⟩] : Scope) ≠ ([⟨"x", true, .int 5⟩] : Scope) := by
  constructor <;> decide

/-- C7 amended: `generate_table` / `generate_chart` run the block body on a
disposable engine — only the `row` / `plot` host builtins are scoped to
the call: `row` is a runtime error on every engine that did not register
it — but against the persistent scope passed by mutable reference, so the
scope the body produced (including any mutation of scope variables) is
threaded back into the runtime. -/
theorem disposable_engine_scope_mutations (X : Collab) (rt : Runtime)
    (script : String) (ast : SAst) (st : RunState)
    (hc : X.compile script = some ast) :
    (execStmts X.fuel (rt.merged ast).fns true false (initRun rt.scope)
        (rt.merged ast).stmts = .ok st →
      ∀ r rs, st.rowsAcc = r :: rs →
        rt.generate_table X script = some (.ok ({ rt with scope := st.scope }, (r, rs)))) ∧
    (execStmts X.fuel (rt.merged ast).fns false true (initRun rt.scope)
        (rt.merged ast).stmts = .ok st →
      rt.generate_chart X script = .ok ({ rt with scope := st.scope }, st.plotsAcc)) ∧
    (∀ (fuel : Nat) (fns : List SFn) (st' : RunState) (ln : Nat) (args : List SExpr),
      execStmt fuel fns false false st' (ln, .rowCall args) =
        .error "runtime error: unknown function row") := by
  refine ⟨?_, ?_, ?_⟩
  · intro hr r rs hrr
    simp [Runtime.generate_table, hc, hr, hrr]
  · intro hr
    simp [Runtime.generate_chart, hc, hr]
  · intro fuel fns st' ln args
    simp [execStmt]

theorem disposable_engine_scope_mutations_witness :
    Runtime.generate_table mutCollab ⟨[⟨"x", true, .int 5⟩], none⟩ "x = 99; row([1]);"
      = some (.ok (⟨[⟨"x", true, .int 99⟩], none⟩, (["1"], []))) :=
  (disposable_engine_scope_mutations mutCollab ⟨[⟨"x", true, .int 5⟩], none⟩
    "x = 99; row([1]);" ⟨[], [(1, .assign "x" (.lit 99)), (1, .rowCall [.lit 1])]⟩
    ⟨[⟨"x", true, .int 99⟩], [], [["1"]], [], .unit⟩ (by decide)).1
    (by decide) ["1"] [] (by decide)

theorem lookupVar_setVar_ne (sc : Scope) (y : String) (v : Value) (x : String)
    (hne : x ≠ y) :
    ∀ sc', setVar sc y v = some sc' → lookupVar sc' x = lookupVar sc x := by
  induction sc with
  | nil => intro sc' hs; simp [setVar] at hs
  | cons sv rest ih =>
    intro sc' hs
    by_cases hy : sv.name = y
    · rw [setVar, if_pos hy] at hs
      by_cases hm : sv.isMut
      · rw [if_pos hm] at hs
        obtain rfl := Option.some.inj hs
        have hx : ¬ sv.name = x := fun hc => hne (by rw [← hc, hy])
        simp only [lookupVar, List.find?]
        have : (decide (sv.name = x)) = false := by simp [hx]
        simp [this]
      · rw [if_neg hm] at hs; cases hs
    · rw [setVar, if_neg hy] at hs
      cases hrest : setVar rest y v with
      | none => rw [hrest] at hs; cases hs
      | some rest' =>
        rw [hrest] at hs
        obtain rfl := Option.some.inj hs
        simp only [lookupVar, List.find?]
        cases hxx : decide (sv.name = x) with
        | true => rfl
        | false => exact ih rest' hrest

theorem lookupVar_execStmt (fuel : Nat) (fns : List SFn) (hR hP : Bool)
    (st st' : RunState) (s : Nat × SStmt) (x : String)
    (hok : execStmt fuel fns hR hP st s = .ok st')
    (hw : writesVar x s.2 = false) :
    lookupVar st'.scope x = lookupVar st.scope x := by
  obtain ⟨ln, stmt⟩ := s
  cases stmt with
  | letv y e =>
    have hy : ¬ y = x := by simpa [writesVar] using hw
    simp only [execStmt] at hok
    split at hok
    · obtain rfl := Except.ok.inj hok
      simp [lookupVar, List.find?, hy]
    · cases hok
  | assign y e =>
    have hy : ¬ x = y := by
      intro hc; subst hc; simp [writesVar] at hw
    simp only [execStmt] at hok
    split at hok
    next v hv =>
      split at hok
      next sc hs =>
        obtain rfl := Except.ok.inj hok
        exact lookupVar_setVar_ne st.scope y v x hy sc hs
      next hs => cases hok
    next hv => cases hok
  | debug e =>
    simp only [execStmt] at hok
    split at hok
    · obtain rfl := Except.ok.inj hok; rfl
    · cases hok
  | exprStmt e =>
    simp only [execStmt] at hok
    split at hok
    · obtain rfl := Except.ok.inj hok; rfl
    · cases hok
  | rowCall args =>
    simp only [execStmt] at hok
    by_cases hr : hR
    · rw [if_pos hr] at hok
      split at hok
      · obtain rfl := Except.ok.inj hok; rfl
      · cases hok
    · rw [if_neg hr] at hok; cases hok
  | plotCall pts =>
    simp only [execStmt] at hok
    by_cases hp : hP
    · rw [if_pos hp] at hok
      split at hok
      · obtain rfl := Except.ok.inj hok; rfl
      · cases hok
    · rw [if_neg hp] at hok; cases hok

theorem lookupVar_execStmts (fuel : Nat) (fns : List SFn) (hR hP : Bool) (x : String) :
    ∀ (stmts : List (Nat × SStmt)) (st st' : RunState),
      execStmts fuel fns hR hP st stmts = .ok st' →
      (∀ s ∈ stmts, writesVar x s.2 = false) →
      lookupVar st'.scope x = lookupVar st.scope x := by
  intro stmts
  induction stmts with
  | nil =>
    intro st st' hok _
    obtain rfl := Except.ok.inj hok
    rfl
  | cons s rest ih =>
    intro st st' hok hw
    simp only [execStmts] at hok
    split at hok
    · rename_i st₁ hs
      have h₁ := lookupVar_execStmt fuel fns hR hP st st₁ s x hs
        (hw s (List.mem_cons_self s rest))
      have h₂ := ih st₁ st' hok (fun t ht => hw t (List.mem_cons_of_mem s ht))
      rw [h₂, h₁]
    · cases hok

theorem run_block_no_write (X : Collab) (rt rt' : Runtime) (s : String)
    (lines : List LineType) (x : String)
    (h : rt.run_block X s = .ok (rt', lines))
    (hW : ∀ ast, X.compile s = some ast → astWrites x (rt.merged ast) = false) :
    lookupVar rt'.scope x = lookupVar rt.scope x ∧ rt'.globals = rt.globals := by
  simp only [Runtime.run_block] at h
  split at h
  · cases h
  · rename_i ast hc
    split at h
    · cases h
    · rename_i st hr
      obtain ⟨h1, _⟩ := Prod.mk.injEq .. ▸ Except.ok.inj h
      have hall : ∀ t ∈ (rt.merged ast).stmts, writesVar x t.2 = false := by
        have := hW ast hc
        simpa [astWrites, List.any_eq_true] using this
      constructor
      · rw [← congrArg Runtime.scope h1]
        exact lookupVar_execStmts X.fuel (rt.merged ast).fns false false x
          (rt.merged ast).stmts (initRun rt.scope) st hr hall
      · rw [← congrArg Runtime.globals h1]

theorem run_block_globals (X : Collab) (rt rt' : Runtime) (s : String)
    (lines : List LineType) (h : rt.run_block X s = .ok (rt', lines)) :
    rt'.globals = rt.globals := by
  simp only [Runtime.run_block] at h
  split at h
  · cases h
  · split at h
    · cases h
    · obtain ⟨h1, _⟩ := Prod.mk.injEq .. ▸ Except.ok.inj h
      rw [← congrArg Runtime.globals h1]

theorem merged_congr (rt rt'' : Runtime) (ast : SAst) (h : rt.globals = rt''.globals) :
    rt.merged ast = rt''.merged ast := by
  simp [Runtime.merged, h]

theorem run_blocks_seq_preserves (X : Collab) (x : String) (rt₁ : Runtime) :
    ∀ (mid : List String) (rt rt₂ : Runtime),
      rt.globals = rt₁.globals →
      run_blocks_seq X rt mid = .ok rt₂ →
      (∀ s ∈ mid, ∀ ast, X.compile s = some ast →
        astWrites x (rt₁.merged ast) = false) →
      lookupVar rt₂.scope x = lookupVar rt.scope x ∧ rt₂.globals = rt₁.globals := by
  intro mid
  induction mid with
  | nil =>
    intro rt rt₂ hg hok _
    obtain rfl := Except.ok.inj hok
    exact ⟨rfl, hg⟩
  | cons s rest ih =>
    intro rt rt₂ hg hok hw
    simp only [run_blocks_seq] at hok
    split at hok
    next p hp =>
      have hW : ∀ ast, X.compile s = some ast → astWrites x (rt.merged ast) = false := by
        intro ast hc
        rw [merged_congr rt rt₁ ast hg]
        exact hw s (List.mem_cons_self s rest) ast hc
      obtain ⟨hl, hgl⟩ := run_block_no_write X rt p.1 s p.2 x (by rw [hp]) hW
      obtain ⟨hl₂, hg₂⟩ := ih p.1 rt₂ (hgl.trans hg) hok
        (fun t ht => hw t (List.mem_cons_of_mem s ht))
      exact ⟨hl₂.trans hl, hg₂⟩
    next => cases hok

/-- C4: within one document render, a variable `x` holding value `v` after
Script block N stays visible with that value through every later
script-bearing block that does not rebind it (blocks run strictly in
source order against the one persistent scope), and a later inline
expression `x` evaluates to `v`. -/
theorem persistent_scope_visibility (X : Collab) (rt₀ rt₁ rt₂ : Runtime)
    (defSrc : String) (lines₀ : List LineType) (mid : List String)
    (x : String) (v : Value)
    (_hdef : rt₀.run_block X defSrc = .ok (rt₁, lines₀))
    (hx : (lookupVar rt₁.scope x).map (·.val) = some v)
    (hmid : ∀ s ∈ mid, ∀ ast, X.compile s = some ast →
      astWrites x (rt₁.merged ast) = false)
    (hrun : run_blocks_seq X rt₁ mid = .ok rt₂) :
    (lookupVar rt₂.scope x).map (·.val) = some v ∧
    ∀ (esrc : String) (n : Nat),
      X.compile esrc = some ⟨[], [(n, .exprStmt (.varE x))]⟩ →
      (∀ g, rt₂.globals = some g → g.stmts = []) →
      0 < X.fuel →
      ∃ rt₃, rt₂.eval_line X esrc = .ok (rt₃, valueToString v) := by
  obtain ⟨hl, _⟩ := run_blocks_seq_preserves X x rt₁ mid rt₁ rt₂ rfl hrun hmid
  have hx₂ : (lookupVar rt₂.scope x).map (·.val) = some v := by rw [hl]; exact hx
  refine ⟨hx₂, ?_⟩
  intro esrc n hce hg hfuel
  obtain ⟨sv, hsv, hval⟩ := Option.map_eq_some'.mp hx₂
  obtain ⟨k, hk⟩ : ∃ k, X.fuel = k + 1 := ⟨X.fuel - 1, by omega⟩
  have hstmts : (rt₂.merged ⟨[], [(n, .exprStmt (.varE x))]⟩).stmts
      = [(n, SStmt.exprStmt (.varE x))] := by
    cases hG : rt₂.globals with
    | none => simp [Runtime.merged, hG]
    | some g => simp [Runtime.merged, hG, ast_merge, hg g hG]
  refine ⟨{ rt₂ with scope := rt₂.scope }, ?_⟩
  simp only [Runtime.eval_line, hce, hstmts]
  have heval : evalExpr X.fuel (rt₂.merged ⟨[], [(n, .exprStmt (.varE x))]⟩).fns
      rt₂.scope (.varE x) = some v := by
    rw [hk]
    simp [evalExpr, hsv, hval]
  simp [execStmts, execStmt, heval, initRun]

theorem persistent_scope_visibility_witness :
    ∃ rt₃, Runtime.eval_line scopeCollab
      ⟨[⟨"y", true, .int 1⟩, ⟨"x", true, .int 5⟩], none⟩ "x" = .ok (rt₃, "5") := by
  have h := persistent_scope_visibility scopeCollab initial_runtime
    ⟨[⟨"x", true, .int 5⟩], none⟩
    ⟨[⟨"y", true, .int 1⟩, ⟨"x", true, .int 5⟩], none⟩
    "let x = 5;" [.codeL "let x = 5;"] ["let y = 1;"] "x" (.int 5)
    (by decide) (by decide)
    (by intro s hs ast hc
        simp only [List.mem_singleton] at hs
        subst hs
        have hval : scopeCollab.compile "let y = 1;" =
            some ⟨[], [(1, .letv "y" (.lit 1))]⟩ := by decide
        obtain rfl := Option.some.inj (hval.symm.trans hc)
        decide)
    (by decide)
  exact h.2 "x" 1 (by decide) (fun g hg => Option.noConfusion hg) (by decide)

theorem isPrefixOf_append_self (p r : List Char) : p.isPrefixOf (p ++ r) = true := by
  induction p with
  | nil => simp [List.isPrefixOf]
  | cons a p' ih => simp [List.isPrefixOf, ih]

theorem isYamdrLabel_yamdrLabel (i : Nat) : isYamdrLabel (yamdrLabel i) = true :=
  isPrefixOf_append_self yamdrChars (natDigits i)

theorem yamdr_id?_yamdrLabel (i : Nat) :
    yamdr_id? (yamdrLabel i) = if i < 65536 then some i else none := by
  simp only [yamdr_id?, yamdrLabel]
  rw [show (6 : Nat) = yamdrChars.length from rfl, List.drop_left]
  rw [parseDigits_natDigits]

theorem startMarkerLabels_cons_start (t : MTag) (evs : List Ev)
    (h : ∀ l, t = MTag.footnoteDefinition l → isYamdrLabel l = false) :
    startMarkerLabels (.start t :: evs) = startMarkerLabels evs := by
  cases t with
  | footnoteDefinition l => simp [startMarkerLabels, List.filterMap_cons, h l rfl]
  | _ => simp [startMarkerLabels, List.filterMap_cons]

theorem startMarkerLabels_cons_marker (l : String) (evs : List Ev)
    (h : isYamdrLabel l = true) :
    startMarkerLabels (.start (.footnoteDefinition l) :: evs) =
      l :: startMarkerLabels evs := by
  simp [startMarkerLabels, List.filterMap_cons, h]

theorem inject_marker_labels :
    ∀ (evs : List Ev) (level : Int) (elemI : Nat), noStrayMarkers evs →
      startMarkerLabels (inject level elemI evs) =
        (List.range' (nextId level elemI) (markerCount level evs)).map yamdrLabel := by
  intro evs
  induction evs with
  | nil => intro level elemI _; simp [inject, startMarkerLabels, markerCount]
  | cons e rest ih =>
    intro level elemI hno
    have hno' : noStrayMarkers rest := fun l hl => hno l (List.mem_cons_of_mem e hl)
    have hnoe : ∀ t l, e = Ev.start t → t = MTag.footnoteDefinition l →
        isYamdrLabel l = false := by
      intro t l he ht
      exact hno l (by rw [he, ht]; exact List.mem_cons_self _ _)
    cases e with
    | start t =>
      by_cases hl : level + 1 = 1
      · rw [inject, if_pos hl]
        rw [startMarkerLabels_cons_marker _ _ (isYamdrLabel_yamdrLabel elemI)]
        rw [startMarkerLabels_cons_start t _ (fun l ht => hnoe t l rfl ht)]
        rw [ih (level + 1) elemI hno']
        have h0 : nextId level elemI = elemI := by
          simp only [nextId]; rw [if_neg (by omega)]
        have h1 : nextId (level + 1) elemI = elemI + 1 := by
          simp only [nextId]; rw [if_pos (by omega)]
        rw [h0, h1, markerCount, if_pos hl, List.range'_succ, List.map_cons]
      · rw [inject, if_neg hl]
        rw [startMarkerLabels_cons_start t _ (fun l ht => hnoe t l rfl ht)]
        rw [ih (level + 1) elemI hno']
        have : nextId (level + 1) elemI = nextId level elemI := by
          simp only [nextId]; split_ifs <;> omega
        rw [this, markerCount, if_neg hl]
    | stop t =>
      by_cases hl : level - 1 = 0
      · rw [inject, if_pos hl]
        show startMarkerLabels (.stop t :: .stop (.footnoteDefinition _) :: _) = _
        rw [show ∀ evs', startMarkerLabels (Ev.stop t :: evs') = startMarkerLabels evs'
          from fun evs' => by cases t <;> simp [startMarkerLabels, List.filterMap_cons]]
        rw [show ∀ evs', startMarkerLabels (Ev.stop (.footnoteDefinition (yamdrLabel elemI))
            :: evs') = startMarkerLabels evs'
          from fun evs' => by simp [startMarkerLabels, List.filterMap_cons]]
        rw [ih (level - 1) (elemI + 1) hno']
        have h0 : nextId level elemI = elemI + 1 := by
          simp only [nextId]; rw [if_pos (by omega)]
        have h1 : nextId (level - 1) (elemI + 1) = elemI + 1 := by
          simp only [nextId]; rw [if_neg (by omega)]
        rw [h0, h1, markerCount]
      · rw [inject, if_neg hl]
        rw [show ∀ evs', startMarkerLabels (Ev.stop t :: evs') = startMarkerLabels evs'
          from fun evs' => by cases t <;> simp [startMarkerLabels, List.filterMap_cons]]
        rw [ih (level - 1) elemI hno']
        have hnx : nextId (level - 1) elemI = nextId level elemI := by
          simp only [nextId]; split_ifs <;> omega
        rw [hnx, markerCount]
    | text s =>
      rw [show inject level elemI (Ev.text s :: rest) = Ev.text s :: inject level elemI rest
        from rfl]
      rw [show startMarkerLabels (Ev.text s :: inject level elemI rest) =
        startMarkerLabels (inject level elemI rest)
        from by simp [startMarkerLabels, List.filterMap_cons]]
      rw [ih level elemI hno']
      rfl
    | code s =>
      rw [show inject level elemI (Ev.code s :: rest) = Ev.code s :: inject level elemI rest
        from rfl]
      rw [show startMarkerLabels (Ev.code s :: inject level elemI rest) =
        startMarkerLabels (inject level elemI rest)
        from by simp [startMarkerLabels, List.filterMap_cons]]
      rw [ih level elemI hno']
      rfl
    | html s =>
      rw [show inject level elemI (Ev.html s :: rest) = Ev.html s :: inject level elemI rest
        from rfl]
      rw [show startMarkerLabels (Ev.html s :: inject level elemI rest) =
        startMarkerLabels (inject level elemI rest)
        from by simp [startMarkerLabels, List.filterMap_cons]]
      rw [ih level elemI hno']
      rfl
    | softBreak =>
      rw [show inject level elemI (Ev.softBreak :: rest) =
        Ev.softBreak :: inject level elemI rest from rfl]
      rw [show startMarkerLabels (Ev.softBreak :: inject level elemI rest) =
        startMarkerLabels (inject level elemI rest)
        from by simp [startMarkerLabels, List.filterMap_cons]]
      rw [ih level elemI hno']
      rfl
    | hardBreak =>
      rw [show inject level elemI (Ev.hardBreak :: rest) =
        Ev.hardBreak :: inject level elemI rest from rfl]
      rw [show startMarkerLabels (Ev.hardBreak :: inject level elemI rest) =
        startMarkerLabels (inject level elemI rest)
        from by simp [startMarkerLabels, List.filterMap_cons]]
      rw [ih level elemI hno']
      rfl
    | rule =>
      rw [show inject level elemI (Ev.rule :: rest) = Ev.rule :: inject level elemI rest
        from rfl]
      rw [show startMarkerLabels (Ev.rule :: inject level elemI rest) =
        startMarkerLabels (inject level elemI rest)
        from by simp [startMarkerLabels, List.filterMap_cons]]
      rw [ih level elemI hno']
      rfl

theorem extSepIds_append (a b : List ExtEv) :
    extSepIds (a ++ b) = extSepIds a ++ extSepIds b := by
  simp [extSepIds, List.filterMap_append]

theorem classify_step_no_sep (X : Collab) (st : CState) (e : Ev)
    (p : CState × List ExtEv)
    (hnm : ∀ l, e = Ev.start (.footnoteDefinition l) → isYamdrLabel l = false)
    (h : classify_step X st e = some p) : extSepIds p.2 = [] := by
  cases e with
  | start t =>
    cases t with
    | footnoteDefinition l =>
      simp only [classify_step, hnm l rfl] at h
      obtain rfl := Option.some.inj (by simpa using h)
      rfl
    | codeBlockFenced prop =>
      simp only [classify_step] at h
      split at h <;> { obtain rfl := Option.some.inj h; rfl }
    | paragraph => obtain rfl := Option.some.inj h; rfl
    | heading lvl id => obtain rfl := Option.some.inj h; rfl
    | codeBlockIndented => obtain rfl := Option.some.inj h; rfl
    | table cols => obtain rfl := Option.some.inj h; rfl
    | tableHead => obtain rfl := Option.some.inj h; rfl
    | tableRow => obtain rfl := Option.some.inj h; rfl
    | tableCell => obtain rfl := Option.some.inj h; rfl
    | list start => obtain rfl := Option.some.inj h; rfl
    | item => obtain rfl := Option.some.inj h; rfl
    | blockQuote => obtain rfl := Option.some.inj h; rfl
    | link dest => obtain rfl := Option.some.inj h; rfl
    | strong => obtain rfl := Option.some.inj h; rfl
    | emphasis => obtain rfl := Option.some.inj h; rfl
    | strikethrough => obtain rfl := Option.some.inj h; rfl
  | stop t =>
    cases t with
    | footnoteDefinition l =>
      simp only [classify_step] at h
      split at h <;> { obtain rfl := Option.some.inj h; rfl }
    | codeBlockFenced prop =>
      simp only [classify_step] at h
      split at h <;> { obtain rfl := Option.some.inj h; rfl }
    | paragraph => obtain rfl := Option.some.inj h; rfl
    | heading lvl id => obtain rfl := Option.some.inj h; rfl
    | codeBlockIndented => obtain rfl := Option.some.inj h; rfl
    | table cols => obtain rfl := Option.some.inj h; rfl
    | tableHead => obtain rfl := Option.some.inj h; rfl
    | tableRow => obtain rfl := Option.some.inj h; rfl
    | tableCell => obtain rfl := Option.some.inj h; rfl
    | list start => obtain rfl := Option.some.inj h; rfl
    | item => obtain rfl := Option.some.inj h; rfl
    | blockQuote => obtain rfl := Option.some.inj h; rfl
    | link dest => obtain rfl := Option.some.inj h; rfl
    | strong => obtain rfl := Option.some.inj h; rfl
    | emphasis => obtain rfl := Option.some.inj h; rfl
    | strikethrough => obtain rfl := Option.some.inj h; rfl
  | text s =>
    simp only [classify_step] at h
    split at h
    · split at h
      · obtain rfl := Option.some.inj h; rfl
      · split at h
        · cases h
        · cases h
        · obtain rfl := Option.some.inj h; rfl
        · obtain rfl := Option.some.inj h; rfl
        · cases h
    · obtain rfl := Option.some.inj h; rfl
  | code s =>
    simp only [classify_step] at h
    split at h
    · split at h
      · obtain rfl := Option.some.inj h; rfl
      · obtain rfl := Option.some.inj h; rfl
      · cases h
    · obtain rfl := Option.some.inj h; rfl
  | html s => obtain rfl := Option.some.inj h; rfl
  | softBreak => obtain rfl := Option.some.inj h; rfl
  | hardBreak => obtain rfl := Option.some.inj h; rfl
  | rule => obtain rfl := Option.some.inj h; rfl

theorem classify_sepIds :
    ∀ (evs : List Ev) (X : Collab) (st : CState) (ext : List ExtEv),
      classify X st evs = some ext →
      (startMarkerLabels evs).mapM yamdr_id? = some (extSepIds ext) := by
  intro evs
  induction evs with
  | nil =>
    intro X st ext h
    obtain rfl := Option.some.inj h
    rfl
  | cons e rest ih =>
    intro X st ext h
    simp only [classify] at h
    cases hstep : classify_step X st e with
    | none => rw [hstep] at h; cases h
    | some p =>
      rw [hstep] at h
      simp only [Option.some_bind] at h
      cases hrec : classify X p.1 rest with
      | none => rw [hrec] at h; cases h
      | some out =>
        rw [hrec] at h
        obtain rfl := Option.some.inj (by simpa using h)
        rw [extSepIds_append]
        by_cases hm : ∃ l, e = Ev.start (.footnoteDefinition l) ∧ isYamdrLabel l = true
        · obtain ⟨l, rfl, hy⟩ := hm
          simp only [classify_step, hy, if_true] at hstep
          cases hid : yamdr_id? l with
          | none => rw [hid] at hstep; cases hstep
          | some v =>
            rw [hid] at hstep
            obtain rfl := Option.some.inj hstep
            rw [startMarkerLabels_cons_marker l rest hy]
            simp only [List.mapM_cons, hid, Option.pure_def, Option.bind_eq_bind,
              Option.some_bind]
            rw [ih X _ out hrec]
            simp [extSepIds]
        · have hnm : ∀ l, e = Ev.start (.footnoteDefinition l) → isYamdrLabel l = false := by
            intro l he
            by_contra hc
            exact hm ⟨l, he, by simpa using hc⟩
          have hsml : startMarkerLabels (e :: rest) = startMarkerLabels rest := by
            cases e with
            | start t =>
              exact startMarkerLabels_cons_start t rest (fun l ht => hnm l (by rw [ht]))
            | stop t => cases t <;> simp [startMarkerLabels, List.filterMap_cons]
            | text s => simp [startMarkerLabels, List.filterMap_cons]
            | code s => simp [startMarkerLabels, List.filterMap_cons]
            | html s => simp [startMarkerLabels, List.filterMap_cons]
            | softBreak => simp [startMarkerLabels, List.filterMap_cons]
            | hardBreak => simp [startMarkerLabels, List.filterMap_cons]
            | rule => simp [startMarkerLabels, List.filterMap_cons]
          rw [hsml, classify_step_no_sep X st e p hnm hstep, List.nil_append]
          exact ih X _ out hrec

theorem group_fold_spec :
    ∀ (l : List ExtEv) (acc gs : List (Nat × List ExtEv)),
      group_fold acc l = some gs →
      joinGroups gs = joinGroups acc ++ l ∧
        gs.map (·.1) = acc.map (·.1) ++ extSepIds l := by
  intro l
  induction l with
  | nil =>
    intro acc gs h
    obtain rfl := Option.some.inj h
    simp [extSepIds]
  | cons x rest ih =>
    intro acc gs h
    simp only [group_fold] at h
    cases hstep : group_step acc x with
    | none => rw [hstep] at h; cases h
    | some acc' =>
      rw [hstep] at h
      obtain ⟨hj, hi⟩ := ih acc' gs h
      cases x with
      | separator id =>
        obtain rfl := Option.some.inj hstep
        constructor
        · rw [hj]
          simp [joinGroups, List.flatMap_append, List.append_assoc]
        · rw [hi]
          simp [extSepIds, List.filterMap_cons]
      | standard ev =>
        simp only [group_step] at hstep
        rcases List.eq_nil_or_concat acc with rfl | ⟨init, last, rfl⟩
        · simp at hstep
        · simp only [List.concat_eq_append] at hstep ⊢
          rw [List.getLast?_concat] at hstep
          simp only [List.dropLast_concat] at hstep
          obtain rfl := Option.some.inj hstep
          constructor
          · rw [hj]
            simp [joinGroups, List.flatMap_append, List.append_assoc]
          · rw [hi]
            simp [extSepIds, List.filterMap_cons]
      | customB b =>
        simp only [group_step] at hstep
        rcases List.eq_nil_or_concat acc with rfl | ⟨init, last, rfl⟩
        · simp at hstep
        · simp only [List.concat_eq_append] at hstep ⊢
          rw [List.getLast?_concat] at hstep
          simp only [List.dropLast_concat] at hstep
          obtain rfl := Option.some.inj hstep
          constructor
          · rw [hj]
            simp [joinGroups, List.flatMap_append, List.append_assoc]
          · rw [hi]
            simp [extSepIds, List.filterMap_cons]
      | externalB b =>
        simp only [group_step] at hstep
        rcases List.eq_nil_or_concat acc with rfl | ⟨init, last, rfl⟩
        · simp at hstep
        · simp only [List.concat_eq_append] at hstep ⊢
          rw [List.getLast?_concat] at hstep
          simp only [List.dropLast_concat] at hstep
          obtain rfl := Option.some.inj hstep
          constructor
          · rw [hj]
            simp [joinGroups, List.flatMap_append, List.append_assoc]
          · rw [hi]
            simp [extSepIds, List.filterMap_cons]

theorem mapM_yamdr_id?_labels :
    ∀ (l : List Nat) (ids : List Nat),
      ((l.map yamdrLabel).mapM yamdr_id?) = some ids → ids = l := by
  intro l
  induction l with
  | nil =>
    intro ids h
    simp only [List.map_nil, List.mapM_nil, Option.pure_def, Option.some.injEq] at h
    exact h.symm
  | cons i rest ih =>
    intro ids h
    simp only [List.map_cons, List.mapM_cons, Option.pure_def, Option.bind_eq_bind] at h
    rw [yamdr_id?_yamdrLabel] at h
    by_cases hi : i < 65536
    · rw [if_pos hi] at h
      simp only [Option.some_bind] at h
      cases hrest : (rest.map yamdrLabel).mapM yamdr_id? with
      | none => rw [hrest] at h; cases h
      | some ids' =>
        rw [hrest] at h
        obtain rfl := Option.some.inj (by simpa using h)
        rw [ih ids' hrest]
    · rw [if_neg hi] at h
      simp at h

theorem build_block_id (X : Collab) (g : Nat × List ExtEv) (b : MarkdownBlock)
    (h : build_block X g = some b) : b.id = g.1 := by
  simp only [build_block] at h
  split at h
  · obtain rfl := Option.some.inj h
    rfl
  · cases h1 : transform_all X .html g.2 with
    | none => rw [h1] at h; cases h
    | some hevs =>
      rw [h1] at h
      simp only [Option.some_bind] at h
      cases h2 : transform_all X .md g.2 with
      | none => rw [h2] at h; cases h
      | some mevs =>
        rw [h2] at h
        simp only [Option.some_bind] at h
        cases h3 : md_render mevs with
        | none => rw [h3] at h; cases h
        | some mdStr =>
          rw [h3] at h
          obtain rfl := Option.some.inj (by simpa using h)
          rfl

theorem mapM_build_block_ids (X : Collab) :
    ∀ (gs : List (Nat × List ExtEv)) (blocks : List MarkdownBlock),
      gs.mapM (build_block X) = some blocks →
      blocks.map (·.id) = gs.map (·.1) := by
  intro gs
  induction gs with
  | nil =>
    intro blocks h
    simp only [List.mapM_nil, Option.pure_def, Option.some.injEq] at h
    rw [← h]
    rfl
  | cons g rest ih =>
    intro blocks h
    simp only [List.mapM_cons, Option.pure_def, Option.bind_eq_bind] at h
    cases h1 : build_block X g with
    | none => rw [h1] at h; cases h
    | some b =>
      rw [h1] at h
      simp only [Option.some_bind] at h
      cases h2 : rest.mapM (build_block X) with
      | none => rw [h2] at h; cases h
      | some bs =>
        rw [h2] at h
        obtain rfl := Option.some.inj (by simpa using h)
        simp only [List.map_cons, build_block_id X g b h1, ih bs h2]

/-- C2 counterexample: a document whose token stream opens with a
top-level standalone event (pulldown emits a bare `Rule` for a leading
thematic break `***`) makes `render_blocks` panic at
`acc.last_mut().unwrap()` — there is no segmentation at all, so it is not
the case that every input document is segmented exhaustively. -/
theorem segmentation_counterexample :
    render_blocks defaultCollab [Ev.rule] = none := by decide

/-- C2 amended: whenever `render_blocks` returns (no panic), the
segmentation is exhaustive and contiguous: the extended-event sequence is
exactly the concatenation of the groups (each opened by its separator, so
every event belongs to exactly one group), and the block ids are the
contiguous integers 0, 1, 2, … in order. -/
theorem render_blocks_segmentation (X : Collab) (evs : List Ev)
    (hno : noStrayMarkers evs) (blocks : List MarkdownBlock)
    (hr : render_blocks X evs = some blocks) :
    blocks.map (·.id) = List.range blocks.length ∧
    ∃ ext gs, parse_markdown X evs = some ext ∧ group_fold [] ext = some gs ∧
      ext = joinGroups gs ∧ blocks.map (·.id) = gs.map (·.1) := by
  simp only [render_blocks] at hr
  cases hp : parse_markdown X evs with
  | none => rw [hp] at hr; cases hr
  | some ext =>
    rw [hp] at hr
    simp only [Option.some_bind] at hr
    cases hg : group_fold [] ext with
    | none => rw [hg] at hr; cases hr
    | some gs =>
      rw [hg] at hr
      simp only [Option.some_bind] at hr
      obtain ⟨hjoin, hids⟩ := group_fold_spec ext [] gs hg
      have hbids : blocks.map (·.id) = gs.map (·.1) := mapM_build_block_ids X gs blocks hr
      have hlabels := classify_sepIds (inject 0 0 evs) X ⟨none, Readers.initial⟩ ext hp
      rw [inject_marker_labels evs 0 0 hno] at hlabels
      have hrange : extSepIds ext = List.range' (nextId 0 0) (markerCount 0 evs) :=
        mapM_yamdr_id?_labels _ _ hlabels
      have hn0 : nextId 0 0 = 0 := by simp [nextId]
      have hids0 : gs.map (·.1) = extSepIds ext := by simpa using hids
      have hm : blocks.map (·.id) = List.range' 0 (markerCount 0 evs) := by
        rw [hbids, hids0, hrange, hn0]
      have hlen2 : blocks.length = markerCount 0 evs := by
        have := congrArg List.length hm
        simpa using this
      constructor
      · rw [hm, hlen2, List.range_eq_range']
      · refine ⟨ext, gs, rfl, hg, ?_, hbids⟩
        simp only [joinGroups, List.flatMap_nil, List.nil_append] at hjoin
        rw [← hjoin]
        rfl

theorem render_blocks_segmentation_witness :
    ([⟨0, "", "a\n\n", none⟩, ⟨1, "", "b\n\n", none⟩] : List MarkdownBlock).map (·.id) =
      List.range ([⟨0, "", "a\n\n", none⟩, ⟨1, "", "b\n\n", none⟩] :
        List MarkdownBlock).length :=
  (render_blocks_segmentation defaultCollab
    [.start .paragraph, .text "a", .stop .paragraph,
     .start .paragraph, .text "b", .stop .paragraph]
    (by intro l hl; simp at hl)
    [⟨0, "", "a\n\n", none⟩, ⟨1, "", "b\n\n", none⟩] (by decide)).1

theorem isOutputComment_prefixed (m : String) :
    isOutputComment ("// > " ++ m) = true := by
  have hd : ("// > " ++ m).data = outMarker ++ m.data := by
    rw [show ("// > " ++ m).data = "// > ".data ++ m.data from String.data_append ..]
    rfl
  rw [isOutputComment, hd]
  exact isPrefixOf_append_self outMarker m.data

theorem keptLines_snd (ls : List String) : ∀ i : Nat,
    (keptLines i ls).map (·.2) = stripOut ls := by
  induction ls with
  | nil => intro i; rfl
  | cons l rest ih =>
    intro i
    by_cases hc : isOutputComment l
    · simp [keptLines, hc, stripOut, List.filter_cons, ih (i + 1)]
    · simp only [keptLines, hc, if_neg, Bool.not_eq_true]
      simp [stripOut, List.filter_cons, hc, ih (i + 1)]

theorem keptLines_mem_ge (ls : List String) : ∀ (i : Nat) (pl : Nat × String),
    pl ∈ keptLines i ls → i + 1 ≤ pl.1 := by
  induction ls with
  | nil => intro i pl h; simp [keptLines] at h
  | cons l rest ih =>
    intro i pl h
    by_cases hc : isOutputComment l
    · rw [keptLines, if_pos hc] at h
      have := ih (i + 1) pl h
      omega
    · rw [keptLines, if_neg hc] at h
      rcases List.mem_cons.mp h with rfl | h
      · omega
      · have := ih (i + 1) pl h
        omega

theorem keptLines_not_comment (ls : List String) : ∀ (i : Nat) (pl : Nat × String),
    pl ∈ keptLines i ls → isOutputComment pl.2 = false := by
  induction ls with
  | nil => intro i pl h; simp [keptLines] at h
  | cons l rest ih =>
    intro i pl h
    by_cases hc : isOutputComment l
    · rw [keptLines, if_pos hc] at h
      exact ih (i + 1) pl h
    · rw [keptLines, if_neg hc] at h
      rcases List.mem_cons.mp h with rfl | h
      · simpa using hc
      · exact ih (i + 1) pl h

theorem strip_filter_outputs (entries : List (Nat × String)) :
    strip_filter (entries.map (fun e => LineType.outputL e.2)) =
      entries.map (fun e => LineType.outputL e.2) := by
  rw [strip_filter, List.filter_eq_self]
  intro a ha
  obtain ⟨e, _, rfl⟩ := List.mem_map.mp ha
  rfl

theorem strip_filter_keep (l : String) (h : isOutputComment l = false)
    (t : List LineType) :
    strip_filter (LineType.codeL l :: t) = LineType.codeL l :: strip_filter t := by
  simp [strip_filter, List.filter_cons, h]

theorem strip_filter_drop (l : String) (h : isOutputComment l = true)
    (t : List LineType) :
    strip_filter (LineType.codeL l :: t) = strip_filter t := by
  simp [strip_filter, List.filter_cons, h]

theorem strip_filter_append (a b : List LineType) :
    strip_filter (a ++ b) = strip_filter a ++ strip_filter b := by
  simp [strip_filter, List.filter_append]

theorem run_block_lines_structure :
    ∀ (ls : List String) (i : Nat) (log : List (Nat × String)),
      (∀ p, i < p → p ∉ (keptLines i ls).map (·.1) →
        log.filter (fun e => e.1 = p) = []) →
      md_body_lines (strip_filter (interleave_from i ls log)) =
        (keptLines i ls).flatMap
          (fun pl => pl.2 :: ((log.filter (fun e => e.1 = pl.1)).map
            (fun e => "// > " ++ e.2))) := by
  intro ls
  induction ls with
  | nil => intro i log _; rfl
  | cons l rest ih =>
    intro i log H
    have Hrest : ∀ p, i + 1 < p → p ∉ (keptLines (i + 1) rest).map (·.1) →
        log.filter (fun e => e.1 = p) = [] := by
      intro p hp hmem
      refine H p (by omega) ?_
      by_cases hc : isOutputComment l
      · rw [keptLines, if_pos hc]; exact hmem
      · rw [keptLines, if_neg hc]
        simp only [List.map_cons, List.mem_cons, not_or]
        exact ⟨show p ≠ i + 1 by omega, by simpa using hmem⟩
    by_cases hc : isOutputComment l
    · have houts : log.filter (fun e => e.1 = i + 1) = [] := by
        refine H (i + 1) (by omega) ?_
        rw [keptLines, if_pos hc]
        intro hmem
        obtain ⟨pl, hpl, hfst⟩ := List.mem_map.mp hmem
        have hge := keptLines_mem_ge rest (i + 1) pl hpl
        have hfst2 : pl.1 = i + 1 := hfst
        omega
      rw [interleave_from, houts]
      simp only [List.map_nil]
      rw [strip_filter_append, strip_filter_drop l hc,
        show strip_filter ([] : List LineType) = [] from rfl, List.nil_append,
        keptLines, if_pos hc]
      exact ih (i + 1) log Hrest
    · have ihh := ih (i + 1) log Hrest
      rw [interleave_from, strip_filter_append,
        strip_filter_keep l (by simpa using hc), strip_filter_outputs]
      rw [keptLines, if_neg hc]
      simp only [md_body_lines, List.map_cons, List.map_append, List.map_map,
        List.flatMap_cons] at ihh ⊢
      rw [ihh]
      simp [Function.comp_def]

theorem stripOut_append (a b : List String) :
    stripOut (a ++ b) = stripOut a ++ stripOut b := by
  simp [stripOut, List.filter_append]

theorem stripOut_idem (ls : List String) : stripOut (stripOut ls) = stripOut ls := by
  conv_lhs => rw [stripOut]
  rw [List.filter_eq_self]
  intro a ha
  rw [stripOut] at ha
  exact (List.mem_filter.mp ha).2

theorem stripOut_prefixed (ms : List String) :
    stripOut (ms.map (fun m => "// > " ++ m)) = [] := by
  rw [stripOut, List.filter_eq_nil_iff]
  intro a ha
  obtain ⟨m, _, rfl⟩ := List.mem_map.mp ha
  simp [isOutputComment_prefixed]

theorem stripOut_flatMap_kept (msgs : Nat × String → List String) :
    ∀ (A : List (Nat × String)),
      (∀ pl ∈ A, isOutputComment pl.2 = false) →
      (∀ pl ∈ A, ∀ m ∈ msgs pl, isOutputComment m = true) →
      stripOut (A.flatMap (fun pl => pl.2 :: msgs pl)) = A.map (·.2) := by
  intro A
  induction A with
  | nil => intro _ _; rfl
  | cons a A ih =>
    intro hA hm
    simp only [List.flatMap_cons, List.map_cons]
    have hcomment : isOutputComment a.2 = false := hA a (by simp)
    have hrest : stripOut (msgs a) = [] := by
      rw [stripOut, List.filter_eq_nil_iff]
      intro m hmem
      simp [hm a (by simp) m hmem]
    rw [stripOut_append,
      show stripOut (a.2 :: msgs a) = a.2 :: stripOut (msgs a) from by
        simp [stripOut, List.filter_cons, hcomment],
      hrest, ih (fun pl h => hA pl (by simp [h])) (fun pl h => hm pl (by simp [h]))]
    rfl

theorem flatMap_rank_congr {α β : Type} (fA fB : α → List β) :
    ∀ (A B : List α), A.length = B.length →
      (∀ (k : Nat) (a b : α), A[k]? = some a → B[k]? = some b → fA a = fB b) →
      A.flatMap fA = B.flatMap fB := by
  intro A
  induction A with
  | nil =>
    intro B hlen _
    cases B with
    | nil => rfl
    | cons b B => simp at hlen
  | cons a A ih =>
    intro B hlen hk
    cases B with
    | nil => simp at hlen
    | cons b B =>
      simp only [List.flatMap_cons]
      rw [hk 0 a b (by simp) (by simp),
        ih B (by simpa using hlen)
          (fun k x y hx hy => hk (k + 1) x y (by simpa using hx) (by simpa using hy))]

theorem keptLines_length (ls : List String) (i : Nat) :
    (keptLines i ls).length = (stripOut ls).length := by
  rw [← keptLines_snd ls i, List.length_map]

theorem stripOut_renderLines (engine : List String → List (Nat × String))
    (H0 : ∀ ls p, 0 < p → p ∉ (keptLines 0 ls).map (·.1) →
      (engine ls).filter (fun e => e.1 = p) = [])
    (ls : List String) :
    stripOut (renderLines engine ls) = stripOut ls := by
  rw [renderLines, run_block_lines, run_block_lines_structure ls 0 (engine ls) (H0 ls)]
  rw [stripOut_flatMap_kept _ _ (fun pl h => keptLines_not_comment ls 0 pl h) ?hm]
  · exact keptLines_snd ls 0
  case hm =>
    intro pl _ m hmem
    obtain ⟨e, _, rfl⟩ := List.mem_map.mp hmem
    exact isOutputComment_prefixed e.2

theorem beforeSub_prefix (sep : List Char) : ∀ l : List Char, beforeSub sep l <+: l := by
  intro l
  induction l with
  | nil => simp [beforeSub]
  | cons c r ih =>
    rw [beforeSub]
    split
    · exact List.nil_prefix
    · exact List.cons_prefix_cons.mpr ⟨rfl, ih⟩

theorem beforeSub_no_occ (sep : List Char) (hne : sep ≠ []) :
    ∀ (l a b : List Char), beforeSub sep l = a ++ sep ++ b → False := by
  intro l
  induction l with
  | nil =>
    intro a b h
    rw [beforeSub] at h
    obtain ⟨h1, -⟩ := List.append_eq_nil.mp h.symm
    exact hne (List.append_eq_nil.mp h1).2
  | cons c r ih =>
    intro a b h
    rw [beforeSub] at h
    split at h
    · obtain ⟨h1, -⟩ := List.append_eq_nil.mp h.symm
      exact hne (List.append_eq_nil.mp h1).2
    · next hpre =>
      cases a with
      | nil =>
        simp only [List.nil_append] at h
        cases sep with
        | nil => exact hne rfl
        | cons s0 sep' =>
          rw [List.cons_append] at h
          obtain ⟨rfl, h2⟩ := List.cons.inj h
          apply hpre
          have hp1 : sep' ++ b <+: r := h2 ▸ beforeSub_prefix (c :: sep') r
          have hp2 : sep' <+: r := (List.prefix_append sep' b).trans hp1
          rw [show (c :: sep').isPrefixOf (c :: r) = ((c == c) && sep'.isPrefixOf r)
            from rfl]
          simp [List.isPrefixOf_iff_prefix, hp2]
      | cons a0 a' =>
        simp only [List.cons_append] at h
        obtain ⟨rfl, h2⟩ := List.cons.inj h
        exact ih a' b (by simpa using h2)

theorem beforeSub_append (sep : List Char) (hne : sep ≠ [])
    (hov : ∀ k, k < sep.length → 0 < k → (sep.drop k).isPrefixOf sep = false) :
    ∀ (p x : List Char), (∀ a b, p = a ++ sep ++ b → False) →
      beforeSub sep (p ++ sep ++ x) = p := by
  intro p
  induction p with
  | nil =>
    intro x _
    simp only [List.nil_append]
    cases sep with
    | nil => exact absurd rfl hne
    | cons s0 sep' =>
      rw [show (s0 :: sep') ++ x = s0 :: (sep' ++ x) from rfl, beforeSub, if_pos]
      rw [show s0 :: (sep' ++ x) = (s0 :: sep') ++ x from rfl]
      exact isPrefixOf_append_self (s0 :: sep') x
  | cons c p' ih =>
    intro x hfree
    rw [show (c :: p') ++ sep ++ x = c :: (p' ++ sep ++ x) from by simp, beforeSub,
      if_neg ?hno]
    · rw [ih x (fun a b hh => hfree (c :: a) b (by rw [hh]; simp))]
    case hno =>
      intro hcontra
      have hpref : sep <+: (c :: p') ++ (sep ++ x) := by
        rw [List.isPrefixOf_iff_prefix] at hcontra
        simpa [List.append_assoc] using hcontra
      have htake := List.prefix_iff_eq_take.mp hpref
      by_cases hlen : sep.length ≤ (c :: p').length
      · rw [List.take_append_of_le_length hlen] at htake
        have hp2 : sep <+: c :: p' := htake ▸ List.take_prefix _ _
        obtain ⟨t, ht⟩ := hp2
        exact hfree [] t (by rw [← ht]; simp)
      · push_neg at hlen
        rw [List.take_append_eq_append_take,
          List.take_of_length_le (by omega)] at htake
        rw [List.take_append_of_le_length (by omega)] at htake
        have hd : sep.drop (c :: p').length =
            sep.take (sep.length - (c :: p').length) := by
          conv_lhs => rw [htake]
          exact List.drop_left _ _
        have hpp : (sep.drop (c :: p').length).isPrefixOf sep = true := by
          rw [hd, List.isPrefixOf_iff_prefix]
          exact List.take_prefix _ _
        have hov2 := hov (c :: p').length (by omega) (by simp)
        exact absurd (hpp.symm.trans hov2) (by simp)

theorem beforeOutComment_fixed (pre v : String)
    (hfree : ∀ a b, pre.data = a ++ [' ', '/', '/', ' ', '>'] ++ b → False) :
    beforeOutComment (pre ++ " // > " ++ v) = pre := by
  have hd : (pre ++ " // > " ++ v).data =
      pre.data ++ [' ', '/', '/', ' ', '>'] ++ (' ' :: v.data) := by
    rw [String.data_append, String.data_append]
    simp [List.append_assoc]
  rw [beforeOutComment, hd,
    beforeSub_append [' ', '/', '/', ' ', '>'] (by decide) (by decide) _ _ hfree]

theorem beforeOutComment_no_occ (s : String) :
    ∀ a b, (beforeOutComment s).data = a ++ [' ', '/', '/', ' ', '>'] ++ b → False := by
  intro a b h
  exact beforeSub_no_occ [' ', '/', '/', ' ', '>'] (by decide) s.data a b h

theorem inline_reread (X : Collab) (r : ScriptBlockReader) (s : String)
    (rt' : ScriptBlockReader) (out : String)
    (hread : script_read_inline X r s =
      (rt', .okSome (.scriptB ⟨.inlineO out, CustomBlockHeader.empty ""⟩)))
    (hc : X.compile out = X.compile (String.mk ((s.data.drop 1).dropLast))) :
    can_read_inline ("_" ++ out ++ "_") = true ∧
    script_read_inline X r ("_" ++ out ++ "_") =
      (rt', .okSome (.scriptB ⟨.inlineO out, CustomBlockHeader.empty ""⟩)) := by
  simp only [script_read_inline] at hread
  split at hread
  case h_2 => simp at hread
  case h_1 rt₂ v heval =>
    simp only [Prod.mk.injEq, ReadOutcome.okSome.injEq, CBlock.scriptB.injEq,
      ScriptBlock.mk.injEq, OutputType.inlineO.injEq] at hread
    obtain ⟨hrt, ⟨hout, -⟩⟩ := hread
    have hdata : ("_" ++ out ++ "_").data = '_' :: (out.data ++ ['_']) := by
      rw [String.data_append, String.data_append]
      rfl
    have hinner : String.mk ((("_" ++ out ++ "_").data.drop 1).dropLast) = out := by
      rw [hdata]
      simp [List.dropLast_concat]
    constructor
    · rw [can_read_inline]
      have h1 : decide (3 < ("_" ++ out ++ "_").length) = true := by
        rw [decide_eq_true_eq, String.length_append, String.length_append, ← hout,
          String.length_append, String.length_append]
        have h6 : (" // > " : String).length = 6 := rfl
        have hu : ("_" : String).length = 1 := rfl
        omega
      have h2 : decide (("_" ++ out ++ "_").data.head? = some '_') = true := by
        rw [decide_eq_true_eq, hdata]
        rfl
      have h3 : decide (("_" ++ out ++ "_").data.getLast? = some '_') = true := by
        rw [decide_eq_true_eq, hdata,
          show '_' :: (out.data ++ ['_']) = ('_' :: out.data) ++ ['_'] from rfl,
          List.getLast?_concat]
      rw [h1, h2, h3]
      rfl
    · simp only [script_read_inline, hinner]
      have hevv : Runtime.eval_line X r.runtime out =
          Runtime.eval_line X r.runtime (String.mk ((s.data.drop 1).dropLast)) := by
        simp only [Runtime.eval_line, hc]
      rw [hevv, heval]
      show (({ runtime := rt₂, dataMap := r.dataMap } : ScriptBlockReader),
        ReadOutcome.okSome (CBlock.scriptB ⟨.inlineO (beforeOutComment out ++ " // > " ++ v),
          CustomBlockHeader.empty ""⟩)) =
        (rt', ReadOutcome.okSome (CBlock.scriptB ⟨.inlineO out, CustomBlockHeader.empty ""⟩))
      have hoc : beforeOutComment out =
          beforeOutComment (String.mk ((s.data.drop 1).dropLast)) := by
        rw [← hout]
        exact beforeOutComment_fixed _ v
          (beforeOutComment_no_occ (String.mk ((s.data.drop 1).dropLast)))
      rw [hoc, hout, hrt]

/-- **C1.** Rerendering a custom block is idempotent after the first
normalization pass — for every block kind whose markdown arm is defined
(the DynamicChart markdown arm panics, refuting the original universal
claim; see the counterexample).  Script blocks: for any engine (the
external compile-and-run step, modelled as a function from source lines
to the 1-based debug log) that (a) only logs at positions of lines kept
by the output-comment filter and (b) behaves identically, rank for rank,
on a body and on its comment-stripped body, one render pass (run,
interleave the debug log, strip reserved `// > ` lines) is a fixed point
of a second pass, so debug-output lines never duplicate.  DynamicTable
blocks: for any row collector insensitive to reserved comment lines,
rerendering the emitted body yields the same body.  Data blocks: when
the parser reads the emitted body (yaml dump plus `# ` comment table
lines) back to the same dataset, re-reading and rerendering reproduce
the block and the body verbatim.  Inline expressions: the regenerated
span `_expr // > value_` is routed again and, when the compiler treats
the ` // > ` suffix as a comment, re-evaluates to the very same block,
so the result comment never duplicates.  Code, Plotters and Graph
blocks reproduce their bodies verbatim. -/
theorem custom_block_rerender_idempotent :
    (∀ (engine : List String → List (Nat × String)),
      (∀ ls p, 0 < p → p ∉ (keptLines 0 ls).map (·.1) →
        (engine ls).filter (fun e => e.1 = p) = []) →
      (∀ ls k pl, (keptLines 0 ls)[k]? = some pl →
        ((engine ls).filter (fun e => e.1 = pl.1)).map (·.2) =
          ((engine (stripOut ls)).filter (fun e => e.1 = k + 1)).map (·.2)) →
      ∀ ls, renderLines engine (renderLines engine ls) = renderLines engine ls) ∧
    (∀ (rowsOf : List String → List (List String)),
      (∀ ls, rowsOf (stripOut ls) = rowsOf ls) →
      ∀ code out, table_render_lines rowsOf code = some out →
        table_render_lines rowsOf out = some out) ∧
    (∀ (X : Collab) (r : ScriptBlockReader) (h : CustomBlockHeader) (d : DataBlock),
      h.t = "Data" →
      X.parse_data (data_md_body X d) = some d →
      script_read_block X r h (data_md_body X d) =
        some (⟨r.runtime.add_constant d, r.dataMap ++ [(d.name, d)]⟩,
          .okSome (.scriptB ⟨.dataO d, h⟩)) ∧
      ScriptBlock.to_events X ⟨.dataO d, h⟩ .md =
        some [.start (.codeBlockFenced (X.header_json h)), .text (data_md_body X d),
          .stop (.codeBlockFenced (X.header_json h))]) ∧
    (∀ (X : Collab) (r : ScriptBlockReader) (s : String) (rt' : ScriptBlockReader)
        (out : String),
      script_read_inline X r s =
        (rt', .okSome (.scriptB ⟨.inlineO out, CustomBlockHeader.empty ""⟩)) →
      X.compile out = X.compile (String.mk ((s.data.drop 1).dropLast)) →
      can_read_inline ("_" ++ out ++ "_") = true ∧
      script_read_inline X r ("_" ++ out ++ "_") =
        (rt', .okSome (.scriptB ⟨.inlineO out, CustomBlockHeader.empty ""⟩))) ∧
    (∀ (X : Collab) (h : CustomBlockHeader) (code : String),
      CBlock.to_events X .md (.codeB h code) =
        some [.start (.codeBlockFenced (X.header_json (CustomBlockHeader.empty "Code"))),
          .text code,
          .stop (.codeBlockFenced (X.header_json (CustomBlockHeader.empty "Code")))] ∧
      code_read_block (CustomBlockHeader.empty "Code") code =
        .okSome (.codeB (CustomBlockHeader.empty "Code") code)) ∧
    (∀ (X : Collab) (d : PlottersData),
      X.parse_plotters (X.plotters_yaml d) = some d →
      plotters_read_block X (X.plotters_yaml d) = .okSome (.plottersB d) ∧
      CBlock.to_events X .md (.plottersB d) =
        some [.start (.codeBlockFenced (X.header_json (CustomBlockHeader.empty "Plotters"))),
          .text (X.plotters_yaml d),
          .stop (.codeBlockFenced (X.header_json (CustomBlockHeader.empty "Plotters")))]) ∧
    (∀ (X : Collab) (input svg : String),
      X.parse_graph input = some svg →
      graph_read_block X input = .okSome (.graphB input svg) ∧
      CBlock.to_events X .md (.graphB input svg) =
        some [.start (.codeBlockFenced "\x7b\"t\": \"Graph\"\x7d"), .text input,
          .stop (.codeBlockFenced "\x7b\"t\": \"Graph\"\x7d")]) := by
  refine ⟨?_, ?_, ?_, ?_, ?_, ?_, ?_⟩
  · intro engine H0 H1 ls
    have hstrip := stripOut_renderLines engine H0 ls
    conv_lhs => rw [renderLines, run_block_lines,
      run_block_lines_structure _ 0 _ (H0 (renderLines engine ls))]
    conv_rhs => rw [renderLines, run_block_lines,
      run_block_lines_structure ls 0 (engine ls) (H0 ls)]
    refine flatMap_rank_congr _ _ _ _ ?_ ?_
    · rw [keptLines_length, keptLines_length, hstrip]
    · intro k a b ha hb
      have hmapeq : (keptLines 0 (renderLines engine ls)).map (·.2) =
          (keptLines 0 ls).map (·.2) := by
        rw [keptLines_snd, keptLines_snd, hstrip]
      have ha2 : a.2 = b.2 := by
        have h1 : ((keptLines 0 (renderLines engine ls)).map (·.2))[k]? = some a.2 := by
          rw [List.getElem?_map, ha]; rfl
        have h2 : ((keptLines 0 ls).map (·.2))[k]? = some b.2 := by
          rw [List.getElem?_map, hb]; rfl
        rw [hmapeq] at h1
        exact Option.some.inj (h1.symm.trans h2)
      have hm1 := H1 (renderLines engine ls) k a ha
      have hm2 := H1 ls k b hb
      rw [hstrip] at hm1
      have hmm : ((engine (renderLines engine ls)).filter
            (fun e => e.1 = a.1)).map (·.2) =
          ((engine ls).filter (fun e => e.1 = b.1)).map (·.2) := hm1.trans hm2.symm
      have hpref := congrArg (List.map (fun s => "// > " ++ s)) hmm
      simp only [List.map_map] at hpref
      rw [ha2]
      exact congrArg (fun m => b.2 :: m) (by simpa [Function.comp_def] using hpref)
  · intro rowsOf hro code out h
    rw [table_render_lines] at h
    split at h
    · exact absurd h (by simp)
    · next r rs heq =>
      obtain rfl := Option.some.inj h
      have hso : stripOut (stripOut code ++ (tableMdLines r rs).map ("// > " ++ ·)) =
          stripOut code := by
        rw [stripOut_append, stripOut_idem, stripOut_prefixed, List.append_nil]
      have hreq : rowsOf (stripOut code ++ (tableMdLines r rs).map ("// > " ++ ·)) =
          r :: rs := by
        rw [← hro, hso, hro, heq]
      simp only [table_render_lines, hreq]
      rw [hso]
  · intro X r h d ht hp
    constructor
    · rw [script_read_block, if_neg (by rw [ht]; decide), if_neg (by rw [ht]; decide),
        if_neg (by rw [ht]; decide), if_neg (by rw [ht]; decide), if_pos ht, hp]
    · rfl
  · intro X r s rt' out hread hc
    exact inline_reread X r s rt' out hread hc
  · intro X h code
    exact ⟨rfl, rfl⟩
  · intro X d hp
    refine ⟨?_, rfl⟩
    rw [plotters_read_block, hp]
  · intro X input svg hp
    refine ⟨?_, rfl⟩
    rw [graph_read_block, hp]

/-- **C1 counterexample.** A valid DynamicChart block — its script runs
and accumulates one series — cannot be rendered to markdown at all: the
markdown/Chart arm of `to_events` falls into `todo!()` (script_block.rs),
modelled as `none`.  Rendering every valid custom block to markdown, as
the original claim's quantifier requires, therefore panics here. -/
theorem chart_md_render_counterexample :
    script_read_block chartCollab ScriptBlockReader.initial_state
        (CustomBlockHeader.empty "DynamicChart") "plot([[1, 2]]);" =
      some (ScriptBlockReader.initial_state,
        .okSome (.scriptB ⟨.chartO "plot([[1, 2]]);" [[(1, 2)]],
          CustomBlockHeader.empty "DynamicChart"⟩)) ∧
    ScriptBlock.to_events chartCollab
      ⟨.chartO "plot([[1, 2]]);" [[(1, 2)]], CustomBlockHeader.empty "DynamicChart"⟩
      .md = none := by
  exact ⟨by decide, rfl⟩

theorem custom_block_rerender_idempotent_witness :
    renderLines wEngine ["debug(1+1);"] = ["debug(1+1);", "// > 2"] ∧
    renderLines wEngine ["debug(1+1);", "// > 2"] = ["debug(1+1);", "// > 2"] ∧
    table_render_lines (fun _ => [["A", "B"], ["1", "2"]]) ["let t = make_table();"] =
      some ["let t = make_table();", "// > | A | B |", "// > |---|---|",
        "// > | 1 | 2 |"] ∧
    table_render_lines (fun _ => [["A", "B"], ["1", "2"]])
        ["let t = make_table();", "// > | A | B |", "// > |---|---|",
          "// > | 1 | 2 |"] =
      some ["let t = make_table();", "// > | A | B |", "// > |---|---|",
        "// > | 1 | 2 |"] ∧
    script_read_block c1Collab ScriptBlockReader.initial_state
        (CustomBlockHeader.empty "Data")
        (data_md_body c1Collab ⟨"d", [], [[("a", "1")]]⟩) =
      some (⟨ScriptBlockReader.initial_state.runtime.add_constant ⟨"d", [], [[("a", "1")]]⟩,
          ScriptBlockReader.initial_state.dataMap ++ [("d", ⟨"d", [], [[("a", "1")]]⟩)]⟩,
        .okSome (.scriptB ⟨.dataO ⟨"d", [], [[("a", "1")]]⟩,
          CustomBlockHeader.empty "Data"⟩)) ∧
    can_read_inline ("_" ++ "1+1 // > 2" ++ "_") = true ∧
    script_read_inline c1Collab ScriptBlockReader.initial_state
        ("_" ++ "1+1 // > 2" ++ "_") =
      (ScriptBlockReader.initial_state,
        .okSome (.scriptB ⟨.inlineO "1+1 // > 2", CustomBlockHeader.empty ""⟩)) ∧
    code_read_block (CustomBlockHeader.empty "Code") "let x = 1;" =
      .okSome (.codeB (CustomBlockHeader.empty "Code") "let x = 1;") ∧
    plotters_read_block c1Collab (c1Collab.plotters_yaml ⟨"raw"⟩) =
      .okSome (.plottersB ⟨"raw"⟩) ∧
    graph_read_block c1Collab "graph" = .okSome (.graphB "graph" "<svg/>") := by
  have h0 : ∀ ls p, 0 < p → p ∉ (keptLines 0 ls).map (·.1) →
      (wEngine ls).filter (fun e => e.1 = p) = [] := by
    intro ls p _ hmem
    rw [wEngine]
    split
    · split
      · next pl hpl =>
        have hmem0 : pl ∈ keptLines 0 ls := List.getElem?_mem hpl
        have hin : pl.1 ∈ (keptLines 0 ls).map (·.1) :=
          List.mem_map_of_mem _ hmem0
        have hne : ¬((pl, "2").1.1 = p) := fun hcc => hmem (hcc ▸ hin)
        simp [List.filter_cons, hne]
      · rfl
    · rfl
  have h1 : ∀ ls k pl, (keptLines 0 ls)[k]? = some pl →
      ((wEngine ls).filter (fun e => e.1 = pl.1)).map (·.2) =
        ((wEngine (stripOut ls)).filter (fun e => e.1 = k + 1)).map (·.2) := by
    intro ls k pl hpl
    by_cases hA : stripOut ls = ["debug(1+1);"]
    · have hlen : (keptLines 0 ls).length = 1 := by
        rw [keptLines_length, hA]; rfl
      have hklt : k < (keptLines 0 ls).length := (List.getElem?_eq_some.mp hpl).1
      obtain rfl : k = 0 := by omega
      have hw : wEngine ls = [(pl.1, "2")] := by
        rw [wEngine, if_pos hA, hpl]
      have hw2 : wEngine (stripOut ls) = [(1, "2")] := by
        rw [wEngine, if_pos (by rw [stripOut_idem, hA]), hA]
        rfl
      rw [hw, hw2]
      simp [List.filter_cons]
    · have hw : wEngine ls = [] := by rw [wEngine, if_neg hA]
      have hw2 : wEngine (stripOut ls) = [] := by
        rw [wEngine, if_neg (by rw [stripOut_idem]; exact hA)]
      rw [hw, hw2]
      rfl
  have hfirst : renderLines wEngine ["debug(1+1);"] = ["debug(1+1);", "// > 2"] := by
    decide
  have hfix := custom_block_rerender_idempotent.1 wEngine h0 h1 ["debug(1+1);"]
  have htab : table_render_lines (fun _ => [["A", "B"], ["1", "2"]])
      ["let t = make_table();"] =
    some ["let t = make_table();", "// > | A | B |", "// > |---|---|",
      "// > | 1 | 2 |"] := by decide
  have hread : script_read_inline c1Collab ScriptBlockReader.initial_state "_1+1_" =
      (ScriptBlockReader.initial_state,
        .okSome (.scriptB ⟨.inlineO "1+1 // > 2", CustomBlockHeader.empty ""⟩)) := by
    decide
  have hinl := custom_block_rerender_idempotent.2.2.2.1 c1Collab
    ScriptBlockReader.initial_state "_1+1_" ScriptBlockReader.initial_state
    "1+1 // > 2" hread (by decide)
  refine ⟨hfirst, ?_, htab, ?_, ?_, hinl.1, hinl.2, ?_, ?_, ?_⟩
  · rw [hfirst] at hfix
    exact hfix
  · exact custom_block_rerender_idempotent.2.1 (fun _ => [["A", "B"], ["1", "2"]])
      (fun _ => rfl) _ _ htab
  · exact (custom_block_rerender_idempotent.2.2.1 c1Collab
      ScriptBlockReader.initial_state (CustomBlockHeader.empty "Data")
      ⟨"d", [], [[("a", "1")]]⟩ rfl (by decide)).1
  · exact (custom_block_rerender_idempotent.2.2.2.2.1 c1Collab
      (CustomBlockHeader.empty "Code") "let x = 1;").2
  · exact (custom_block_rerender_idempotent.2.2.2.2.2.1 c1Collab ⟨"raw"⟩
      (by decide)).1
  · exact (custom_block_rerender_idempotent.2.2.2.2.2.2 c1Collab "graph" "<svg/>"
      (by decide)).1
